import Mathlib

/-!
Verification of the `dfs_heuristics` ranking engine (normalize.py, scoring.py,
tiering.py, weights.py, api.py, db.py, types.py).

Python floats are modelled as rationals (`ℚ`); all arithmetic in the source is
exact on the inputs considered.  A raw storage value (a cell of a row mapping)
is modelled by `Val`: `vnone` is Python `None` / an absent key, `vbool` a bool,
`vnum` an int or float whose value is the given rational, and `vstr` a string
on which `float()` / `int()` raise (strings that parse as numbers behave like
`vnum` and are subsumed by that constructor).  Row mappings are modelled as
functions `String → Val` (absent key ↦ `vnone`), and Python dicts with
insertion order as association lists `List (String × ℚ)`.
-/

inductive Val where
  | vnone : Val
  | vbool : Bool → Val
  | vnum : ℚ → Val
  | vstr : String → Val
deriving DecidableEq

/-- Truncation of a rational toward zero, mirroring Python `int(float)`. -/
def ratTrunc (q : ℚ) : Int := Int.tdiv q.num q.den

/-- From normalize.py: `safe_float` — `float(x)` returning `None` on failure.
`None ↦ None`; bools convert to 1.0/0.0; numbers to themselves; non-numeric
strings raise, hence `None`. -/
def safe_float : Val → Option ℚ
  | .vnone => none
  | .vbool b => some (if b then 1 else 0)
  | .vnum q => some q
  | .vstr _ => none

/-- From normalize.py: `clamp01`. -/
def clamp01 (x : ℚ) : ℚ :=
  if x < 0 then 0 else if x > 1 then 1 else x

/-- From normalize.py: `invert01`. -/
def invert01 (x : ℚ) : ℚ := 1 - clamp01 x

/-- From scoring.py: `_bool01` — `None ↦ 0.0`, bools to 1.0/0.0, otherwise
`1.0 if int(x) != 0 else 0.0` with coercion failure (non-numeric strings)
giving 0.0. -/
def _bool01 : Val → ℚ
  | .vnone => 0
  | .vbool b => if b then 1 else 0
  | .vnum q => if ratTrunc q ≠ 0 then 1 else 0
  | .vstr _ => 0

/-- Python `d.get(k, 0.0)` on a dict modelled as an association list. -/
def lookupD (m : List (String × ℚ)) (k : String) (d : ℚ) : ℚ :=
  match m.find? (fun kv => kv.1 == k) with
  | some kv => kv.2
  | none => d

/-- A raw row fetched from storage: a mapping from column name to value,
with `vnone` for absent columns. -/
def Row : Type := String → Val

/-- From scoring.py: `_get(row, key) = safe_float(row.get(key))`. -/
def _get (r : Row) (k : String) : Option ℚ := safe_float (r k)

/-- Python `(row.get("status") or "")` restricted to string-or-missing cells
(the status column is TEXT; a truthy non-string would raise in the source). -/
def statusOf : Val → String
  | .vstr s => s
  | _ => ""

/-- Python `int(row.get("salary") or 0)` under `try/except` defaulting to 0. -/
def intOf : Val → Int
  | .vnone => 0
  | .vbool b => if b then 1 else 0
  | .vnum q => ratTrunc q
  | .vstr _ => 0

/-- Python `str.upper()` restricted to the ASCII statuses and site codes the
source compares against. -/
def pyUpper (s : String) : String := ⟨s.data.map Char.toUpper⟩

/-- Python `str.strip()`: drop leading and trailing whitespace. -/
def pyStrip (s : String) : String :=
  ⟨((s.data.dropWhile Char.isWhitespace).reverse.dropWhile Char.isWhitespace).reverse⟩

/-! ### percentile_rank (normalize.py) -/

/-- The `for i, v in enumerate(values): fv = safe_float(v); if fv is None:
continue; indexed.append((i, fv))` loop of `percentile_rank`, with `k` the
index of the first entry. -/
def indexedFrom (k : Nat) : List Val → List (Nat × ℚ)
  | [] => []
  | v :: vs =>
    match safe_float v with
    | none => indexedFrom (k + 1) vs
    | some q => (k, q) :: indexedFrom (k + 1) vs

/-- Insertion into a list sorted ascending by second component. -/
def insertAsc (x : Nat × ℚ) : List (Nat × ℚ) → List (Nat × ℚ)
  | [] => [x]
  | y :: ys => if x.2 ≤ y.2 then x :: y :: ys else y :: insertAsc x ys

/-- `indexed.sort(key=lambda t: t[1])`: sorting ascending by value. -/
def sortAsc : List (Nat × ℚ) → List (Nat × ℚ)
  | [] => []
  | x :: xs => insertAsc x (sortAsc xs)

/-- The percentile its tie group receives: ranks are 1-indexed, the group
occupies ranks `start+1 .. start+len`, its average rank is
`(start + 1 + (start+len)) / 2`, and rank maps to `(avg − 1)/(n − 1)`
(0 when `n = 1`). -/
def groupPr (n start len : Nat) : ℚ :=
  let avg : ℚ := ((start : ℚ) + 1 + ((start + len : Nat) : ℚ)) / 2
  if n = 1 then 0 else (avg - 1) / ((n : ℚ) - 1)

/-- The `while rank < n:` loop of `percentile_rank`: extract the tie run at
the front of the (sorted) list, assign its average-rank percentile to every
member, continue after it.  Returns the `(original index, percentile)`
assignments.  `fuel` bounds the number of runs; each run consumes at least
one element, so `l.length` is always enough fuel. -/
def assignRunsF (fuel : Nat) (n start : Nat) (l : List (Nat × ℚ)) : List (Nat × ℚ) :=
  match fuel, l with
  | _, [] => []
  | 0, _ :: _ => []
  | fuel + 1, x :: xs =>
    let run := x :: xs.takeWhile (fun y => decide (y.2 = x.2))
    let rest := xs.dropWhile (fun y => decide (y.2 = x.2))
    run.map (fun p => (p.1, groupPr n start run.length)) ++
      assignRunsF fuel n (start + run.length) rest

/-- The run-assignment loop with sufficient fuel. -/
def assignRuns (n : Nat) (start : Nat) (l : List (Nat × ℚ)) : List (Nat × ℚ) :=
  assignRunsF l.length n start l

/-- From normalize.py: `percentile_rank`.  Missing entries (those on which
`safe_float` fails) keep the initial 0.0; present entries are sorted by value
and each tie group receives its average-rank percentile. -/
def percentile_rank (values : List Val) : List ℚ :=
  let indexed := indexedFrom 0 values
  let n := indexed.length
  let out := List.replicate values.length (0 : ℚ)
  if n = 0 then out
  else (assignRuns n 0 (sortAsc indexed)).foldl (fun acc p => acc.set p.1 p.2) out

/-- Wrap a `float | None` value back into a storage cell; the source passes
such lists (produced by `_get`) to `percentile_rank`, whose internal
`safe_float` is the identity on them. -/
def optVal : Option ℚ → Val
  | none => .vnone
  | some q => .vnum q

/-- `percentile_rank` on a `list[float | None]` argument. -/
def percentile_rank_f (vs : List (Option ℚ)) : List ℚ :=
  percentile_rank (vs.map optVal)

/-! ### Feature builders (scoring.py) -/

/-- From scoring.py: `build_features_qb`.  Each percentile-derived feature is
computed once across the whole row group; list indexing `xs[i]` is written
`xs.getD i 0` (every percentile list has the same length as `rows`). -/
def build_features_qb (rows : List Row) : List (List (String × ℚ)) :=
  let med := percentile_rank_f (rows.map (fun r => _get r "proj_points_median"))
  let floor := percentile_rank_f (rows.map (fun r => _get r "proj_points_floor"))
  let value := percentile_rank_f (rows.map (fun r => _get r "value_pts_per_1k"))
  let dropbacks := percentile_rank_f (rows.map (fun r => _get r "proj_dropbacks"))
  let rush_att := percentile_rank_f (rows.map (fun r => _get r "proj_rush_attempts"))
  let gl_rush := percentile_rank_f (rows.map (fun r => _get r "proj_goal_line_rush_att"))
  let implied := percentile_rank_f (rows.map (fun r => _get r "team_implied_points"))
  let pressure := percentile_rank_f (rows.map (fun r => _get r "opp_pressure_rate"))
  let ints := percentile_rank_f (rows.map (fun r => _get r "proj_interceptions"))
  rows.enum.map (fun p =>
    [("median", med.getD p.1 0),
     ("floor", floor.getD p.1 0),
     ("value", value.getD p.1 0),
     ("dropbacks", dropbacks.getD p.1 0),
     ("rush_att", rush_att.getD p.1 0),
     ("gl_rush", gl_rush.getD p.1 0),
     ("implied", implied.getD p.1 0),
     ("low_pressure", invert01 (pressure.getD p.1 0)),
     ("low_ints", invert01 (ints.getD p.1 0)),
     ("qb_rush_upside_flag", _bool01 (p.2 "qb_rush_upside_flag"))])

/-- From scoring.py: `build_features_rb`. -/
def build_features_rb (rows : List Row) : List (List (String × ℚ)) :=
  let med := percentile_rank_f (rows.map (fun r => _get r "proj_points_median"))
  let floor := percentile_rank_f (rows.map (fun r => _get r "proj_points_floor"))
  let value := percentile_rank_f (rows.map (fun r => _get r "value_pts_per_1k"))
  let snaps := percentile_rank_f (rows.map (fun r => _get r "proj_snaps"))
  let routes := percentile_rank_f (rows.map (fun r => _get r "proj_route_participation"))
  let targets := percentile_rank_f (rows.map (fun r => _get r "proj_targets"))
  let gl_share := percentile_rank_f (rows.map (fun r => _get r "proj_goal_line_share"))
  let hv := percentile_rank_f (rows.map (fun r => _get r "proj_high_value_touches"))
  let spread := percentile_rank_f (rows.map (fun r => _get r "spread_home"))
  rows.enum.map (fun p =>
    let committee := _bool01 (p.2 "committee_risk_flag")
    [("median", med.getD p.1 0),
     ("floor", floor.getD p.1 0),
     ("value", value.getD p.1 0),
     ("snaps", snaps.getD p.1 0),
     ("routes", routes.getD p.1 0),
     ("targets", targets.getD p.1 0),
     ("gl_share", gl_share.getD p.1 0),
     ("hv_touches", hv.getD p.1 0),
     ("favored", invert01 (spread.getD p.1 0)),
     ("low_committee", 1 - committee),
     ("committee_risk_flag", committee)])

/-- From scoring.py: `build_features_wr`. -/
def build_features_wr (rows : List Row) : List (List (String × ℚ)) :=
  let med := percentile_rank_f (rows.map (fun r => _get r "proj_points_median"))
  let floor := percentile_rank_f (rows.map (fun r => _get r "proj_points_floor"))
  let value := percentile_rank_f (rows.map (fun r => _get r "value_pts_per_1k"))
  let routes := percentile_rank_f (rows.map (fun r => _get r "proj_route_participation"))
  let targets := percentile_rank_f (rows.map (fun r => _get r "proj_targets"))
  let share := percentile_rank_f (rows.map (fun r => _get r "proj_target_share"))
  let adot := percentile_rank_f (rows.map (fun r => _get r "proj_adot"))
  let rz := percentile_rank_f (rows.map (fun r => _get r "proj_red_zone_targets"))
  rows.enum.map (fun p =>
    let boom := _bool01 (p.2 "boom_bust_flag")
    let every := _bool01 (p.2 "every_down_role_flag")
    [("median", med.getD p.1 0),
     ("floor", floor.getD p.1 0),
     ("value", value.getD p.1 0),
     ("routes", routes.getD p.1 0),
     ("targets", targets.getD p.1 0),
     ("tgt_share", share.getD p.1 0),
     ("low_adot", invert01 (adot.getD p.1 0)),
     ("rz_targets", rz.getD p.1 0),
     ("every_down", every),
     ("low_boombust", 1 - boom),
     ("boom_bust_flag", boom)])

/-- From scoring.py: `build_features_te`. -/
def build_features_te (rows : List Row) : List (List (String × ℚ)) :=
  let med := percentile_rank_f (rows.map (fun r => _get r "proj_points_median"))
  let floor := percentile_rank_f (rows.map (fun r => _get r "proj_points_floor"))
  let value := percentile_rank_f (rows.map (fun r => _get r "value_pts_per_1k"))
  let routes := percentile_rank_f (rows.map (fun r => _get r "proj_route_participation"))
  let targets := percentile_rank_f (rows.map (fun r => _get r "proj_targets"))
  let share := percentile_rank_f (rows.map (fun r => _get r "proj_target_share"))
  let rz := percentile_rank_f (rows.map (fun r => _get r "proj_red_zone_targets"))
  rows.enum.map (fun p =>
    let td_bust := _bool01 (p.2 "td_or_bust_flag")
    let full_route := _bool01 (p.2 "full_route_role_flag")
    [("median", med.getD p.1 0),
     ("floor", floor.getD p.1 0),
     ("value", value.getD p.1 0),
     ("routes", routes.getD p.1 0),
     ("targets", targets.getD p.1 0),
     ("tgt_share", share.getD p.1 0),
     ("rz_targets", rz.getD p.1 0),
     ("full_route", full_route),
     ("low_td_bust", 1 - td_bust),
     ("td_or_bust_flag", td_bust)])

/-- The derived DST value signal `pts_per_1k = median / (salary/1000)` when
salary and median are present and salary > 0, else missing. -/
def dst_value_of (r : Row) : Option ℚ :=
  match _get r "salary", _get r "proj_points_median" with
  | some salary, some pts => if salary ≤ 0 then none else some (pts / (salary / 1000))
  | _, _ => none

/-- From scoring.py: `build_features_dst` (parametrised by the slate site). -/
def build_features_dst (rows : List Row) (site : String) : List (List (String × ℚ)) :=
  let med := percentile_rank_f (rows.map (fun r => _get r "proj_points_median"))
  let floor := percentile_rank_f (rows.map (fun r => _get r "proj_points_floor"))
  let value := percentile_rank_f (rows.map dst_value_of)
  let sacks := percentile_rank_f (rows.map (fun r => _get r "proj_sacks"))
  let tos := rows.map (fun r =>
    ((_get r "proj_interceptions").getD 0) + ((_get r "proj_fumbles_recovered").getD 0))
  let turnovers := percentile_rank_f (tos.map some)
  let drop := percentile_rank_f (rows.map (fun r => _get r "opp_dropbacks_proj"))
  let opp_imp := percentile_rank_f (rows.map (fun r => _get r "opp_implied_points"))
  rows.enum.map (fun p =>
    let pay := _bool01 (p.2 "pay_up_viable_flag")
    let pay_adj := if pyUpper site = "FD" then pay else (1/2) * pay
    [("median", med.getD p.1 0),
     ("floor", floor.getD p.1 0),
     ("value", value.getD p.1 0),
     ("sacks", sacks.getD p.1 0),
     ("turnovers", turnovers.getD p.1 0),
     ("opp_dropbacks", drop.getD p.1 0),
     ("low_opp_implied", invert01 (opp_imp.getD p.1 0)),
     ("pay_up", pay_adj)])

/-! ### Weight profiles (weights.py) -/

structure WeightSet where
  weights : List (String × ℚ)
deriving DecidableEq

structure PositionWeightProfile where
  position : String
  tight : WeightSet
  loose : WeightSet
deriving DecidableEq

/-- From weights.py: the QB profile of `default_weight_profiles`. -/
def qb_profile : PositionWeightProfile :=
  { position := "QB"
    tight := ⟨[("median", 22/100), ("floor", 14/100), ("value", 16/100),
               ("dropbacks", 10/100), ("rush_att", 14/100), ("gl_rush", 4/100),
               ("implied", 6/100), ("low_pressure", 4/100), ("low_ints", 6/100)]⟩
    loose := ⟨[("median", 30/100), ("floor", 12/100), ("value", 10/100),
               ("dropbacks", 10/100), ("rush_att", 18/100), ("gl_rush", 5/100),
               ("implied", 8/100), ("low_pressure", 3/100), ("low_ints", 4/100)]⟩ }

/-- From weights.py: the RB profile of `default_weight_profiles`. -/
def rb_profile : PositionWeightProfile :=
  { position := "RB"
    tight := ⟨[("median", 18/100), ("floor", 14/100), ("value", 14/100),
               ("snaps", 12/100), ("routes", 10/100), ("targets", 12/100),
               ("gl_share", 8/100), ("hv_touches", 10/100), ("favored", 2/100),
               ("low_committee", 8/100)]⟩
    loose := ⟨[("median", 24/100), ("floor", 12/100), ("value", 10/100),
               ("snaps", 12/100), ("routes", 10/100), ("targets", 12/100),
               ("gl_share", 8/100), ("hv_touches", 8/100), ("favored", 4/100),
               ("low_committee", 0)]⟩ }

/-- From weights.py: the WR profile of `default_weight_profiles`. -/
def wr_profile : PositionWeightProfile :=
  { position := "WR"
    tight := ⟨[("median", 16/100), ("floor", 12/100), ("value", 14/100),
               ("routes", 12/100), ("targets", 16/100), ("tgt_share", 10/100),
               ("low_adot", 8/100), ("rz_targets", 4/100), ("every_down", 6/100),
               ("low_boombust", 2/100)]⟩
    loose := ⟨[("median", 22/100), ("floor", 10/100), ("value", 10/100),
               ("routes", 12/100), ("targets", 16/100), ("tgt_share", 10/100),
               ("low_adot", 6/100), ("rz_targets", 6/100), ("every_down", 6/100),
               ("low_boombust", 2/100)]⟩ }

/-- From weights.py: the TE profile of `default_weight_profiles`. -/
def te_profile : PositionWeightProfile :=
  { position := "TE"
    tight := ⟨[("median", 14/100), ("floor", 10/100), ("value", 18/100),
               ("routes", 16/100), ("targets", 16/100), ("tgt_share", 10/100),
               ("rz_targets", 8/100), ("full_route", 6/100), ("low_td_bust", 2/100)]⟩
    loose := ⟨[("median", 18/100), ("floor", 10/100), ("value", 12/100),
               ("routes", 18/100), ("targets", 18/100), ("tgt_share", 10/100),
               ("rz_targets", 8/100), ("full_route", 6/100), ("low_td_bust", 0)]⟩ }

/-- From weights.py: the DST profile of `default_weight_profiles`. -/
def dst_profile : PositionWeightProfile :=
  { position := "DST"
    tight := ⟨[("median", 10/100), ("floor", 4/100), ("value", 22/100),
               ("sacks", 18/100), ("turnovers", 16/100), ("opp_dropbacks", 10/100),
               ("low_opp_implied", 16/100), ("pay_up", 4/100)]⟩
    loose := ⟨[("median", 12/100), ("floor", 4/100), ("value", 18/100),
               ("sacks", 18/100), ("turnovers", 16/100), ("opp_dropbacks", 10/100),
               ("low_opp_implied", 18/100), ("pay_up", 4/100)]⟩ }

/-- From weights.py: `default_weight_profiles`, keyed by position. -/
def default_weight_profiles : List (String × PositionWeightProfile) :=
  [("QB", qb_profile), ("RB", rb_profile), ("WR", wr_profile),
   ("TE", te_profile), ("DST", dst_profile)]

/-! ### Weight blending (api.py, rank_slate_positions) -/

/-- The union `set(tight) | set(loose)` of weight keys, enumerated with the
tight keys first; Python's set enumeration order is unspecified, and every
stated result is independent of it. -/
def unionKeys (tight loose : List (String × ℚ)) : List String :=
  tight.map Prod.fst ++ (loose.map Prod.fst).filter (fun k => !(tight.map Prod.fst).contains k)

/-- From api.py: the blended weight dict
`{k: (1-looseness)*tight.get(k, 0) + looseness*loose.get(k, 0) for k in union}`. -/
def blendWeights (looseness : ℚ) (tight loose : List (String × ℚ)) : List (String × ℚ) :=
  (unionKeys tight loose).map
    (fun k => (k, (1 - looseness) * lookupD tight k 0 + looseness * lookupD loose k 0))

/-! ### Linear scoring and penalties (scoring.py) -/

/-- From scoring.py: `linear_score` — total and per-feature contributions,
one contribution per weight key in order. -/
def linear_score (features weights : List (String × ℚ)) : ℚ × List (String × ℚ) :=
  let contributions := weights.map (fun kw => (kw.1, kw.2 * clamp01 (lookupD features kw.1 0)))
  ((contributions.map Prod.snd).sum, contributions)

/-- From scoring.py: `apply_penalties` — flag penalties for RB/WR/TE, then the
−1.0 inactive demotion when the upper-cased, stripped status is O/OUT/IR. -/
def apply_penalties (position : String) (base_score : ℚ) (raw_row : Row)
    (features : List (String × ℚ)) : ℚ :=
  let score := base_score
  let score := if position = "RB" ∧ 1 ≤ lookupD features "committee_risk_flag" 0
    then score - 6/100 else score
  let score := if position = "WR" ∧ 1 ≤ lookupD features "boom_bust_flag" 0
    then score - 3/100 else score
  let score := if position = "TE" ∧ 1 ≤ lookupD features "td_or_bust_flag" 0
    then score - 4/100 else score
  let status := pyStrip (pyUpper (statusOf (raw_row "status")))
  if status = "O" ∨ status = "OUT" ∨ status = "IR" then score - 1 else score

/-- From api.py (player loop of `rank_slate_positions`): base linear score,
`apply_penalties`, then the +0.02 QB rush-upside bonus. -/
def player_final (pos : String) (weights : List (String × ℚ)) (r : Row)
    (f : List (String × ℚ)) : ℚ :=
  let base := (linear_score f weights).1
  let base := apply_penalties pos base r f
  if pos = "QB" ∧ 1 ≤ lookupD f "qb_rush_upside_flag" 0 then base + 2/100 else base

/-- From api.py (DST loop of `rank_slate_positions`): base linear score, then
the site-specific salary pay-down; no other adjustment is applied to DST. -/
def dst_final (site : String) (weights : List (String × ℚ)) (r : Row)
    (f : List (String × ℚ)) : ℚ :=
  let base := (linear_score f weights).1
  let sal := intOf (r "salary")
  let base := if site = "DK" ∧ 3800 ≤ sal then base - 4/100 else base
  if site = "FD" ∧ 4800 ≤ sal then base - 2/100 else base

/-! ### Tier assignment (tiering.py) -/

/-- Python `min(scores)` for a non-empty list. -/
def listMin : List ℚ → ℚ
  | [] => 0
  | x :: xs => xs.foldl min x

/-- Python `max(scores)` for a non-empty list. -/
def listMax : List ℚ → ℚ
  | [] => 0
  | x :: xs => xs.foldl max x

/-- From tiering.py: `assign_tier`. -/
def assign_tier (scores : List ℚ) (looseness : ℚ) : List String :=
  if scores = [] then []
  else
    let smin := listMin scores
    let smax := listMax scores
    let denom := if smax - smin ≠ 0 then smax - smin else 1
    let norm := scores.map (fun s => (s - smin) / denom)
    let l := clamp01 looseness
    let must_th := 86/100 - 4/100 * l
    norm.map (fun x =>
      if x ≥ must_th then "must"
      else if x ≥ 68/100 then "want"
      else if x ≥ 50/100 then "viable"
      else "fade")

/-- Numeric height of a tier label: must > want > viable > fade. -/
def tierRank (t : String) : Nat :=
  if t = "must" then 3 else if t = "want" then 2 else if t = "viable" then 1 else 0

/-! ### Per-position ranking pipeline (api.py, rank_slate_positions) -/

/-- Position dispatch of the feature builders in the player loop. -/
def build_features (pos : String) (rows : List Row) : List (List (String × ℚ)) :=
  if pos = "QB" then build_features_qb rows
  else if pos = "RB" then build_features_rb rows
  else if pos = "WR" then build_features_wr rows
  else build_features_te rows

/-- Stable insertion before the first strictly smaller score, realising
Python's stable `scored.sort(key=lambda t: t[0], reverse=True)` on
`(input index, final score)` pairs. -/
def insertScoreDesc (x : Nat × ℚ) : List (Nat × ℚ) → List (Nat × ℚ)
  | [] => [x]
  | y :: ys => if y.2 ≤ x.2 then x :: y :: ys else y :: insertScoreDesc x ys

/-- Stable descending sort by score. -/
def sortScoreDesc : List (Nat × ℚ) → List (Nat × ℚ)
  | [] => []
  | x :: xs => insertScoreDesc x (sortScoreDesc xs)

/-- Input positions paired with values: `enumerate(...)` as index/value pairs. -/
def idxFrom (k : Nat) : List ℚ → List (Nat × ℚ)
  | [] => []
  | s :: ss => (k, s) :: idxFrom (k + 1) ss

/-- The output loop of `rank_slate_positions`: append entries in order, and
after each append stop as soon as `len(out) >= max_per_position` (when a cap
was supplied).  `outLen` is `len(out)` before the next append. -/
def appendLoop {α : Type} (maxPer : Option Int) : List α → Nat → List α
  | [], _ => []
  | x :: xs, outLen =>
    x :: (match maxPer with
      | some m => if (outLen + 1 : Int) ≥ m then [] else appendLoop maxPer xs (outLen + 1)
      | none => appendLoop maxPer xs (outLen + 1))

/-- The default `max_per_position` of `rank_slate_positions`. -/
def default_max_per_position : Option Int := some 30

/-- Scores of a player position group, in input row order. -/
def score_rows (pos : String) (weights : List (String × ℚ)) (rows : List Row)
    (feats : List (List (String × ℚ))) : List ℚ :=
  (rows.zip feats).map (fun rf => player_final pos weights rf.1 rf.2)

/-- One player position group of `rank_slate_positions`: build features, blend
weights, score, sort descending (stable), assign tiers to the full sorted
score list, then emit `(input row index, final score, tier)` entries under the
`max_per_position` cap. -/
def rank_player_group (pos : String) (tight loose : List (String × ℚ)) (rows : List Row)
    (looseness : ℚ) (maxPer : Option Int) : List (Nat × ℚ × String) :=
  let weights := blendWeights looseness tight loose
  let feats := build_features pos rows
  let scores := score_rows pos weights rows feats
  let sorted := sortScoreDesc (idxFrom 0 scores)
  let tiers := assign_tier (sorted.map Prod.snd) looseness
  appendLoop maxPer ((sorted.zip tiers).map (fun pt => (pt.1.1, pt.1.2, pt.2))) 0

/-- Scores of the DST group, in input row order: base linear score plus the
site pay-down (the DST loop reads no status and applies no other penalty). -/
def dst_score_rows (site : String) (weights : List (String × ℚ)) (rows : List Row)
    (feats : List (List (String × ℚ))) : List ℚ :=
  (rows.zip feats).map (fun rf => dst_final site weights rf.1 rf.2)

/-- The DST group of `rank_slate_positions` (the DST output loop of api.py):
build DST features, blend the DST weights, score each row with the site
pay-down, sort descending (stable), assign tiers to the full sorted score
list, then emit `(input row index, final score, tier)` entries under the
`max_per_position` cap, checked after each append exactly as in the player
loop. -/
def rank_dst_group (site : String) (tight loose : List (String × ℚ)) (rows : List Row)
    (looseness : ℚ) (maxPer : Option Int) : List (Nat × ℚ × String) :=
  let weights := blendWeights looseness tight loose
  let feats := build_features_dst rows site
  let scores := dst_score_rows site weights rows feats
  let sorted := sortScoreDesc (idxFrom 0 scores)
  let tiers := assign_tier (sorted.map Prod.snd) looseness
  appendLoop maxPer ((sorted.zip tiers).map (fun pt => (pt.1.1, pt.1.2, pt.2))) 0

/-! ### Result and persistence model (types.py, api.py write_rankings) -/

/-- From types.py: `RankedEntity`.  `entity_type`, `position` and `tier` are
string literals in the source; `features` is the raw row plus contribution
map, not consumed by persistence. -/
structure RankedEntity where
  slate_id : String
  entity_type : String
  position : String
  entity_id : String
  name : String
  team_id : Option String
  opp_team_id : Option String
  salary : Int
  cash_score : ℚ
  importance_score : Option ℚ
  final_score : ℚ
  tier : String
  reasons : List String
deriving DecidableEq

/-- From types.py: `RankingResults` (`by_position` with dict insertion order). -/
structure RankingResults where
  slate_id : String
  site : String
  looseness : ℚ
  by_position : List (String × List RankedEntity)
deriving DecidableEq

/-- A stored `heuristic_rank` row; `reasons_json` is the serialised reasons
list and `created_ts` the `datetime('now')` value at write time. -/
structure HeuristicRankRow where
  slate_id : String
  entity_type : String
  position : String
  entity_id : String
  cash_score : ℚ
  importance_score : Option ℚ
  final_score : ℚ
  tier : String
  reasons_json : List String
  created_ts : Nat
deriving DecidableEq

/-- The row inserted for one ranked entity by `write_rankings`. -/
def rowOf (ts : Nat) (e : RankedEntity) : HeuristicRankRow :=
  { slate_id := e.slate_id
    entity_type := e.entity_type
    position := e.position
    entity_id := e.entity_id
    cash_score := e.cash_score
    importance_score := e.importance_score
    final_score := e.final_score
    tier := e.tier
    reasons_json := e.reasons
    created_ts := ts }

/-- All ranked entities of a result set, in `by_position` iteration order. -/
def allEntities (r : RankingResults) : List RankedEntity :=
  (r.by_position.map Prod.snd).flatten

/-- From api.py: `write_rankings` — when `replace` is set, delete every
`heuristic_rank` row of the slate, then insert one row per ranked entity.
The table is modelled as a list of rows in insertion order; `ts` is the
write-time timestamp. -/
def write_rankings (replace : Bool) (ts : Nat) (rankings : RankingResults)
    (store : List HeuristicRankRow) : List HeuristicRankRow :=
  let store := if replace
    then store.filter (fun row => !(row.slate_id == rankings.slate_id))
    else store
  store ++ (rankings.by_position.map (fun pe => pe.2.map (rowOf ts))).flatten

/-! ### Looseness estimation (api.py, _estimate_looseness) -/

/-- One row of the `_estimate_looseness` query: `proj_points_median` and
`salary` of an active (status not O/OUT/IR), non-NULL-salary entity of the
slate; the status and NULL filters happen in SQL, so the function is modelled
on the already-filtered row list. -/
structure SlateValueRow where
  proj_points_median : Val
  salary : Val
deriving DecidableEq

/-- The derived points-per-$1000 of one row: missing unless both fields
convert to floats and the salary is positive. -/
def looseness_val (r : SlateValueRow) : Option ℚ :=
  match safe_float r.proj_points_median, safe_float r.salary with
  | some pts, some sal => if sal ≤ 0 then none else some (pts / (sal / 1000))
  | _, _ => none

/-- From api.py: `_estimate_looseness` on the fetched rows: 0.5 when the query
returns nothing, else `clamp01((high − 12)/24)` where `high` counts percentile
ranks of the derived value at or above 0.80. -/
def _estimate_looseness (rows : List SlateValueRow) : ℚ :=
  if rows = [] then 1/2
  else
    let prs := percentile_rank_f (rows.map looseness_val)
    let high := (prs.filter (fun p => 4/5 ≤ p)).length
    clamp01 (((high : ℚ) - 12) / 24)

/-- Modelled from the spec: an eligible entity for looseness estimation has
"both a priced salary (>0) and a median point projection". -/
def eligible (r : SlateValueRow) : Bool :=
  match safe_float r.salary, safe_float r.proj_points_median with
  | some sal, some _ => decide (0 < sal)
  | _, _ => false

/-! ### Specification-side formulas used to state the claims -/

/-- Count of entries strictly below `v`. -/
def cntLtQ (v : ℚ) (ps : List ℚ) : Nat := (ps.filter (fun x => decide (x < v))).length

/-- Count of entries equal to `v`. -/
def cntEqQ (v : ℚ) (ps : List ℚ) : Nat := (ps.filter (fun x => decide (x = v))).length

/-- The present entries of a `percentile_rank` input, in order. -/
def presentOf (values : List Val) : List ℚ := values.filterMap safe_float

/-- The spec's percentile formula for a present value `v` among the present
population `ps`: the tie group of `v` occupies the 1-indexed ranks after the
`cntLtQ v ps` smaller entries, every member receives the group's average rank,
and rank maps to `(avg − 1)/(n − 1)` (0 when the population is a single
entry). -/
def specPercentile (v : ℚ) (ps : List ℚ) : ℚ :=
  groupPr ps.length (cntLtQ v ps) (cntEqQ v ps)

/-- The spec §4.5 reading of the DST final score, in which the −1.0
out/injured-reserve status adjustment applies to every position including
DST, on top of the site pay-down. -/
def spec_dst_score_with_status_floor (site : String) (weights : List (String × ℚ))
    (r : Row) (f : List (String × ℚ)) : ℚ :=
  dst_final site weights r f +
    (if pyStrip (pyUpper (statusOf (r "status"))) = "O" ∨
        pyStrip (pyUpper (statusOf (r "status"))) = "OUT" ∨
        pyStrip (pyUpper (statusOf (r "status"))) = "IR"
     then -1 else 0)

/-- A stored DST row whose status column reads "OUT" and whose other cells
are absent. -/
def dstOutRow : Row := fun k => if k = "status" then .vstr "OUT" else .vnone

/-- The tier thresholds of §4.7, applied to one normalized score
(most-exclusive first). -/
def tier_label (must_th x : ℚ) : String :=
  if x ≥ must_th then "must"
  else if x ≥ 68/100 then "want"
  else if x ≥ 50/100 then "viable"
  else "fade"

/-- The strict output order of a ranked position group: strictly higher final
score first, ties broken by smaller input row index (stability of the
descending sort). -/
def scoreOrder (a b : Nat × ℚ) : Prop := b.2 < a.2 ∨ (a.2 = b.2 ∧ a.1 < b.1)

/-- The shipped profile a position group uses. -/
def profile_for (pos : String) : PositionWeightProfile :=
  if pos = "QB" then qb_profile
  else if pos = "RB" then rb_profile
  else if pos = "WR" then wr_profile
  else if pos = "TE" then te_profile
  else dst_profile

/-- A QB row that leads its two-row slate in every projected category, whose
stored status reads "out" (lower case, so the SQL-side
`status NOT IN ('O','OUT','IR')` filter does not exclude it while
`apply_penalties` normalises it to OUT). -/
def qbOutX : Row := fun k =>
  if k = "proj_points_median" then .vnum 30
  else if k = "proj_points_floor" then .vnum 20
  else if k = "value_pts_per_1k" then .vnum 4
  else if k = "proj_dropbacks" then .vnum 40
  else if k = "proj_rush_attempts" then .vnum 8
  else if k = "proj_goal_line_rush_att" then .vnum 2
  else if k = "team_implied_points" then .vnum 28
  else if k = "opp_pressure_rate" then .vnum (1/5)
  else if k = "proj_interceptions" then .vnum (1/2)
  else if k = "qb_rush_upside_flag" then .vbool true
  else if k = "status" then .vstr "out"
  else .vnone

/-- An active QB row that trails `qbOutX` in every projected category. -/
def qbActiveY : Row := fun k =>
  if k = "proj_points_median" then .vnum 20
  else if k = "proj_points_floor" then .vnum 10
  else if k = "value_pts_per_1k" then .vnum 3
  else if k = "proj_dropbacks" then .vnum 30
  else if k = "proj_rush_attempts" then .vnum 2
  else if k = "proj_goal_line_rush_att" then .vnum 1
  else if k = "team_implied_points" then .vnum 20
  else if k = "opp_pressure_rate" then .vnum (2/5)
  else if k = "proj_interceptions" then .vnum 1
  else .vnone

/-- The feature vector `build_features_qb` produces for `qbOutX` in the
two-row group `[qbOutX, qbActiveY]`. -/
def qbFeatsX : List (String × ℚ) :=
  [("median", 1), ("floor", 1), ("value", 1), ("dropbacks", 1), ("rush_att", 1),
   ("gl_rush", 1), ("implied", 1), ("low_pressure", 1), ("low_ints", 1),
   ("qb_rush_upside_flag", 1)]

/-- The feature vector `build_features_qb` produces for `qbActiveY` in the
two-row group `[qbOutX, qbActiveY]`. -/
def qbFeatsY : List (String × ℚ) :=
  [("median", 0), ("floor", 0), ("value", 0), ("dropbacks", 0), ("rush_att", 0),
   ("gl_rush", 0), ("implied", 0), ("low_pressure", 0), ("low_ints", 0),
   ("qb_rush_upside_flag", 0)]

/-! ### Theorems -/

theorem safe_float_optVal (o : Option ℚ) : safe_float (optVal o) = o := by
  cases o <;> rfl

theorem lookupD_cons (k' : String) (v : ℚ) (m : List (String × ℚ)) (k : String) (d : ℚ) :
    lookupD ((k', v) :: m) k d = if k' = k then v else lookupD m k d := by
  by_cases h : k' = k
  · simp [lookupD, List.find?, h]
  · simp only [lookupD, List.find?]
    have : ((k', v).1 == k) = false := by simpa using h
    rw [this]
    simp [h]

/-- Claim C10: `linear_score` depends only on the weight set's keys: the
contribution list carries exactly the weight keys in order, each contribution
is `weight * clamp01(features.get(key, 0.0))`, the returned total is the sum
of the contributions, and any two feature maps that agree on every weight key
produce identical output, so feature keys outside the weight set never affect
the result. -/
theorem linear_score_correct (features weights : List (String × ℚ)) :
    ((linear_score features weights).2.map Prod.fst = weights.map Prod.fst) ∧
    ((linear_score features weights).2 =
      weights.map (fun kw => (kw.1, kw.2 * clamp01 (lookupD features kw.1 0)))) ∧
    ((linear_score features weights).1 =
      ((linear_score features weights).2.map Prod.snd).sum) ∧
    (∀ features' : List (String × ℚ),
      (∀ k ∈ weights.map Prod.fst, lookupD features k 0 = lookupD features' k 0) →
      linear_score features weights = linear_score features' weights) := by
  refine ⟨?_, rfl, rfl, ?_⟩
  · simp only [linear_score, List.map_map]
    exact List.map_congr_left (fun a _ => rfl)
  · intro f' h
    unfold linear_score
    have heq : weights.map (fun kw => (kw.1, kw.2 * clamp01 (lookupD features kw.1 0))) =
        weights.map (fun kw => (kw.1, kw.2 * clamp01 (lookupD f' kw.1 0))) := by
      apply List.map_congr_left
      intro kw hkw
      rw [h kw.1 (List.mem_map_of_mem Prod.fst hkw)]
    rw [heq]

/-- Witness for C10: a feature map with an extra key `"b"` (absent from the
weight set) produces the same score and contributions. -/
theorem linear_score_correct_witness :
    linear_score [("a", 2)] [("a", 1/2)] = linear_score [("a", 2), ("b", 9)] [("a", 1/2)] := by
  refine (linear_score_correct [("a", 2)] [("a", 1/2)]).2.2.2 _ ?_
  intro k hk
  simp only [List.map_cons, List.map_nil, List.mem_cons, List.not_mem_nil, or_false] at hk
  subst hk
  simp [lookupD_cons]

/-- Claim C8 counterexample: the non-boolean flag value 5 is coerced by
`_bool01` to 1, not 0 (the source runs `int(x) != 0` on non-bool values). -/
theorem bool01_nonbool_cx : _bool01 (Val.vnum 5) = 1 ∧ (1 : ℚ) ≠ 0 := by
  constructor
  · simp [_bool01, ratTrunc, Rat.num_ofNat, Rat.den_ofNat]
  · norm_num

/-- Claim C8 (amended): a raw-flag value that is missing, or fails integer
coercion (e.g. a non-numeric string), is coerced to 0; a boolean maps to
1/0; any other numeric value maps to 1 exactly when its integer truncation is
nonzero.  The feature builders consume each raw-flag field
(`qb_rush_upside_flag`, `committee_risk_flag`, `boom_bust_flag`,
`every_down_role_flag`, `td_or_bust_flag`, `full_route_role_flag`,
`pay_up_viable_flag`) through this coercion. -/
theorem bool01_correct :
    (_bool01 Val.vnone = 0) ∧
    (∀ s, _bool01 (Val.vstr s) = 0) ∧
    (∀ b, _bool01 (Val.vbool b) = if b then 1 else 0) ∧
    (∀ q : ℚ, _bool01 (Val.vnum q) = if ratTrunc q = 0 then 0 else 1) ∧
    (∀ rows (i : Nat) (r : Row), rows[i]? = some r →
      ((build_features_qb rows)[i]?.map (fun f => lookupD f "qb_rush_upside_flag" 0) =
        some (_bool01 (r "qb_rush_upside_flag")))) ∧
    (∀ rows (i : Nat) (r : Row), rows[i]? = some r →
      ((build_features_rb rows)[i]?.map (fun f => lookupD f "committee_risk_flag" 0) =
        some (_bool01 (r "committee_risk_flag")))) ∧
    (∀ rows (i : Nat) (r : Row), rows[i]? = some r →
      ((build_features_wr rows)[i]?.map (fun f => lookupD f "boom_bust_flag" 0) =
        some (_bool01 (r "boom_bust_flag"))) ∧
      ((build_features_wr rows)[i]?.map (fun f => lookupD f "every_down" 0) =
        some (_bool01 (r "every_down_role_flag")))) ∧
    (∀ rows (i : Nat) (r : Row), rows[i]? = some r →
      ((build_features_te rows)[i]?.map (fun f => lookupD f "td_or_bust_flag" 0) =
        some (_bool01 (r "td_or_bust_flag"))) ∧
      ((build_features_te rows)[i]?.map (fun f => lookupD f "full_route" 0) =
        some (_bool01 (r "full_route_role_flag")))) ∧
    (∀ rows (i : Nat) (r : Row) site, rows[i]? = some r → pyUpper site = "FD" →
      ((build_features_dst rows site)[i]?.map (fun f => lookupD f "pay_up" 0) =
        some (_bool01 (r "pay_up_viable_flag")))) := by
  refine ⟨rfl, fun s => rfl, fun b => rfl, ?_, ?_, ?_, ?_, ?_, ?_⟩
  · intro q
    simp only [_bool01, ne_eq, ite_not]
  · intro rows i r h
    simp [build_features_qb, List.getElem?_map, List.getElem?_enum, h, lookupD_cons]
  · intro rows i r h
    simp [build_features_rb, List.getElem?_map, List.getElem?_enum, h, lookupD_cons]
  · intro rows i r h
    constructor <;>
      simp [build_features_wr, List.getElem?_map, List.getElem?_enum, h, lookupD_cons]
  · intro rows i r h
    constructor <;>
      simp [build_features_te, List.getElem?_map, List.getElem?_enum, h, lookupD_cons]
  · intro rows i r site h hsite
    simp [build_features_dst, List.getElem?_map, List.getElem?_enum, h, hsite, lookupD_cons]

/-- Witness for C8 (amended): a missing QB flag cell is consumed as 0. -/
theorem bool01_correct_witness :
    ((build_features_qb [fun _ => Val.vnone])[0]?.map
      (fun f => lookupD f "qb_rush_upside_flag" 0)) = some 0 :=
  (bool01_correct.2.2.2.2.1 [fun _ => Val.vnone] 0 (fun _ => Val.vnone) rfl)

theorem lookupD_map_key (ks : List String) (g : String → ℚ) (k : String) (d : ℚ) :
    k ∈ ks → lookupD (ks.map (fun k => (k, g k))) k d = g k := by
  induction ks with
  | nil => intro h; cases h
  | cons k' ks ih =>
    intro h
    rw [List.map_cons, lookupD_cons]
    by_cases hk : k' = k
    · subst hk; simp
    · rw [if_neg hk]
      rcases List.mem_cons.mp h with h | h
      · exact absurd h.symm hk
      · exact ih h

theorem lookupD_not_mem (m : List (String × ℚ)) (k : String) (d : ℚ) :
    k ∉ m.map Prod.fst → lookupD m k d = d := by
  induction m with
  | nil => intro _; rfl
  | cons kv m ih =>
    intro h
    rw [show kv = (kv.1, kv.2) from rfl, lookupD_cons]
    simp only [List.map_cons, List.mem_cons, not_or] at h
    rw [if_neg (fun hh => h.1 hh.symm)]
    exact ih h.2

theorem mem_unionKeys (tight loose : List (String × ℚ)) (k : String) :
    k ∈ unionKeys tight loose ↔ k ∈ tight.map Prod.fst ∨ k ∈ loose.map Prod.fst := by
  simp only [unionKeys, List.mem_append, List.mem_filter, Bool.not_eq_true',
    ← Bool.not_eq_true, List.elem_iff]
  by_cases h : k ∈ tight.map Prod.fst <;> simp [h]

/-- Claim C3: the effective per-feature weight is
`(1-looseness)*tight[k] + looseness*loose[k]` over the union of the two key
sets with an absent key weighted 0; at looseness 0 it reproduces the tight
weight, at looseness 1 the loose weight, for every key; and for
looseness ∈ [0,1] every blended weight lies between the tight and loose
values (convex combination). -/
theorem blendWeights_correct (l : ℚ) (tight loose : List (String × ℚ)) :
    ((blendWeights l tight loose).map Prod.fst = unionKeys tight loose) ∧
    (∀ k, k ∈ unionKeys tight loose ↔ (k ∈ tight.map Prod.fst ∨ k ∈ loose.map Prod.fst)) ∧
    (∀ k, k ∉ tight.map Prod.fst → lookupD tight k 0 = 0) ∧
    (∀ k ∈ unionKeys tight loose,
      lookupD (blendWeights l tight loose) k 0 =
        (1 - l) * lookupD tight k 0 + l * lookupD loose k 0) ∧
    (∀ k ∈ unionKeys tight loose,
      lookupD (blendWeights 0 tight loose) k 0 = lookupD tight k 0) ∧
    (∀ k ∈ unionKeys tight loose,
      lookupD (blendWeights 1 tight loose) k 0 = lookupD loose k 0) ∧
    (0 ≤ l → l ≤ 1 → ∀ k ∈ unionKeys tight loose,
      min (lookupD tight k 0) (lookupD loose k 0) ≤ lookupD (blendWeights l tight loose) k 0 ∧
      lookupD (blendWeights l tight loose) k 0 ≤ max (lookupD tight k 0) (lookupD loose k 0)) := by
  have hval : ∀ (l' : ℚ), ∀ k ∈ unionKeys tight loose,
      lookupD (blendWeights l' tight loose) k 0 =
        (1 - l') * lookupD tight k 0 + l' * lookupD loose k 0 := by
    intro l' k hk
    exact lookupD_map_key (unionKeys tight loose) _ k 0 hk
  refine ⟨?_, mem_unionKeys tight loose, ?_, hval l, ?_, ?_, ?_⟩
  · simp [blendWeights, List.map_map, Function.comp_def]
  · intro k hk
    exact lookupD_not_mem tight k 0 hk
  · intro k hk; rw [hval 0 k hk]; ring
  · intro k hk; rw [hval 1 k hk]; ring
  · intro h0 h1 k hk
    rw [hval l k hk]
    set t := lookupD tight k 0 with ht
    set lo := lookupD loose k 0 with hlo
    rcases le_total t lo with hc | hc
    · rw [min_eq_left hc, max_eq_right hc]
      constructor <;> nlinarith [mul_nonneg h0 (sub_nonneg.mpr hc)]
    · rw [min_eq_right hc, max_eq_left hc]
      constructor <;> nlinarith [mul_nonneg h0 (sub_nonneg.mpr hc)]

/-- Witness for C3: the QB profile blended at looseness 1/2, evaluated at the
key "median". -/
theorem blendWeights_correct_witness :
    min (lookupD qb_profile.tight.weights "median" 0) (lookupD qb_profile.loose.weights "median" 0) ≤
      lookupD (blendWeights (1/2) qb_profile.tight.weights qb_profile.loose.weights) "median" 0 ∧
    lookupD (blendWeights (1/2) qb_profile.tight.weights qb_profile.loose.weights) "median" 0 ≤
      max (lookupD qb_profile.tight.weights "median" 0) (lookupD qb_profile.loose.weights "median" 0) := by
  refine (blendWeights_correct (1/2) qb_profile.tight.weights qb_profile.loose.weights).2.2.2.2.2.2
    (by norm_num) (by norm_num) "median" ?_
  rw [mem_unionKeys]
  left
  simp [qb_profile]

/-- Claim C4 (amended): a ranked player's final score is the base linear score
plus exactly the listed additive adjustments — +0.02 for a QB with the
rush-upside flag, −0.06 for an RB with the committee-risk flag, −0.03 for a WR
with the boom/bust flag, −0.04 for a TE with the TD-or-bust flag, and −1.0
when the normalised status is O/OUT/IR; a ranked DST's final score is the base
linear score plus only the site pay-down (−0.04 on DK at salary ≥ 3800, −0.02
on FD at salary ≥ 4800): the DST scoring path reads no status and applies no
−1.0 adjustment. -/
theorem final_score_adjustments (weights f : List (String × ℚ)) (r : Row) :
    (∀ pos,
      player_final pos weights r f =
        (linear_score f weights).1
        + (if pos = "QB" ∧ 1 ≤ lookupD f "qb_rush_upside_flag" 0 then 2/100 else 0)
        + (if pos = "RB" ∧ 1 ≤ lookupD f "committee_risk_flag" 0 then -(6/100) else 0)
        + (if pos = "WR" ∧ 1 ≤ lookupD f "boom_bust_flag" 0 then -(3/100) else 0)
        + (if pos = "TE" ∧ 1 ≤ lookupD f "td_or_bust_flag" 0 then -(4/100) else 0)
        + (if pyStrip (pyUpper (statusOf (r "status"))) = "O" ∨
              pyStrip (pyUpper (statusOf (r "status"))) = "OUT" ∨
              pyStrip (pyUpper (statusOf (r "status"))) = "IR" then -1 else 0)) ∧
    (∀ site,
      dst_final site weights r f =
        (linear_score f weights).1
        + (if site = "DK" ∧ 3800 ≤ intOf (r "salary") then -(4/100) else 0)
        + (if site = "FD" ∧ 4800 ≤ intOf (r "salary") then -(2/100) else 0)) := by
  constructor
  · intro pos
    simp only [player_final, apply_penalties]
    split_ifs <;> ring
  · intro site
    simp only [dst_final]
    split_ifs <;> ring

/-- Claim C4 counterexample: a stored DST row whose status reads "OUT" scores
0 under the code (no status adjustment on the DST path), while the spec's
§4.5 "any position" reading demands −1. -/
theorem dst_status_floor_cx :
    dst_final "DK" [] dstOutRow [] = 0 ∧
    spec_dst_score_with_status_floor "DK" [] dstOutRow [] = -1 ∧
    (0 : ℚ) ≠ -1 := by
  refine ⟨?_, ?_, by norm_num⟩
  · simp [dst_final, linear_score, intOf, dstOutRow]
  · simp [spec_dst_score_with_status_floor, dst_final, linear_score, intOf, dstOutRow, statusOf,
      pyUpper, pyStrip]

theorem foldl_min_le (ys : List ℚ) :
    ∀ a : ℚ, ys.foldl min a ≤ a ∧ ∀ x ∈ ys, ys.foldl min a ≤ x := by
  induction ys with
  | nil =>
    intro a
    exact ⟨le_refl a, by intro x hx; cases hx⟩
  | cons z zs ih =>
    intro a
    rw [List.foldl_cons]
    refine ⟨le_trans (ih (min a z)).1 (min_le_left a z), ?_⟩
    intro x hx
    rcases List.mem_cons.mp hx with rfl | hx
    · exact le_trans (ih (min a x)).1 (min_le_right a x)
    · exact (ih (min a z)).2 x hx

theorem le_foldl_max (ys : List ℚ) :
    ∀ a : ℚ, (a ≤ ys.foldl max a) ∧ ∀ x ∈ ys, x ≤ ys.foldl max a := by
  induction ys with
  | nil =>
    intro a
    exact ⟨le_refl a, by intro x hx; cases hx⟩
  | cons z zs ih =>
    intro a
    rw [List.foldl_cons]
    refine ⟨le_trans (le_max_left a z) (ih (max a z)).1, ?_⟩
    intro x hx
    rcases List.mem_cons.mp hx with rfl | hx
    · exact le_trans (le_max_right a x) (ih (max a x)).1
    · exact (ih (max a z)).2 x hx

theorem listMin_le (l : List ℚ) (x : ℚ) (h : x ∈ l) : listMin l ≤ x := by
  match l with
  | [] => cases h
  | y :: ys =>
    rcases List.mem_cons.mp h with rfl | hx
    · exact (foldl_min_le ys x).1
    · exact (foldl_min_le ys y).2 x hx

theorem le_listMax (l : List ℚ) (x : ℚ) (h : x ∈ l) : x ≤ listMax l := by
  match l with
  | [] => cases h
  | y :: ys =>
    rcases List.mem_cons.mp h with rfl | hx
    · exact (le_foldl_max ys x).1
    · exact (le_foldl_max ys y).2 x hx

theorem tier_label_mono (must_th x y : ℚ) (hxy : y ≤ x) :
    tierRank (tier_label must_th y) ≤ tierRank (tier_label must_th x) := by
  unfold tier_label
  split_ifs <;> simp_all [tierRank] <;> linarith

/-- Claim C5: tier assignment min-max normalizes the group's scores with the
group's own min/max (all-"fade" when min = max, since every normalized value
is 0), assigns "must" at `0.86 − 0.04·looseness`, "want" at 0.68, "viable" at
0.50, "fade" below, and is monotone: a higher score never receives a lower
tier. -/
theorem assign_tier_correct (scores : List ℚ) (l : ℚ) (h0 : 0 ≤ l) (h1 : l ≤ 1) :
    (assign_tier scores l = scores.map (fun s =>
      tier_label (86/100 - 4/100 * l)
        ((s - listMin scores) /
          (if listMax scores - listMin scores ≠ 0 then listMax scores - listMin scores else 1)))) ∧
    (listMin scores = listMax scores → assign_tier scores l = scores.map (fun _ => "fade")) ∧
    (∀ (i j : Nat) (si sj : ℚ) (ti tj : String),
      scores[i]? = some si → scores[j]? = some sj →
      (assign_tier scores l)[i]? = some ti → (assign_tier scores l)[j]? = some tj →
      sj ≤ si → tierRank tj ≤ tierRank ti) := by
  have hclamp : clamp01 l = l := by
    unfold clamp01
    rw [if_neg (not_lt.mpr h0), if_neg (not_lt.mpr (by linarith))]
  have heq : assign_tier scores l = scores.map (fun s =>
      tier_label (86/100 - 4/100 * l)
        ((s - listMin scores) /
          (if listMax scores - listMin scores ≠ 0 then listMax scores - listMin scores else 1))) := by
    by_cases hs : scores = []
    · subst hs; rfl
    · unfold assign_tier
      rw [if_neg hs, hclamp, List.map_map]
      rfl
  refine ⟨heq, ?_, ?_⟩
  · intro hminmax
    rw [heq]
    apply List.map_congr_left
    intro s hs
    have h1' : listMin scores ≤ s := listMin_le scores s hs
    have h2' : s ≤ listMax scores := le_listMax scores s hs
    have hzero : s - listMin scores = 0 := by rw [hminmax] at h1' ⊢; linarith
    have hden : listMax scores - listMin scores = 0 := by rw [hminmax]; ring
    rw [hden]
    simp only [ne_eq, not_true_eq_false, if_false, hzero, zero_div]
    unfold tier_label
    rw [if_neg (by linarith), if_neg (by norm_num), if_neg (by norm_num)]
  · intro i j si sj ti tj hi hj hti htj hle
    have hmemi : si ∈ scores := List.getElem?_mem hi
    have hsmin : listMin scores ≤ si := listMin_le scores si hmemi
    have hsmax : si ≤ listMax scores := le_listMax scores si hmemi
    have hd : (0 : ℚ) < (if listMax scores - listMin scores ≠ 0
        then listMax scores - listMin scores else 1) := by
      split_ifs with h
      · rcases lt_or_eq_of_le (by linarith : (0:ℚ) ≤ listMax scores - listMin scores) with h' | h'
        · exact h'
        · exact absurd h'.symm h
      · norm_num
    rw [heq] at hti htj
    rw [List.getElem?_map, hi, Option.map_some'] at hti
    rw [List.getElem?_map, hj, Option.map_some'] at htj
    have hti' := Option.some.inj hti
    have htj' := Option.some.inj htj
    subst hti' htj'
    apply tier_label_mono
    exact (div_le_div_iff_of_pos_right hd).mpr (by linarith)

/-- Witness for C5: the normalization/threshold equation at the concrete
group `[1, 0]` with looseness 0. -/
theorem assign_tier_correct_witness :
    assign_tier [(1 : ℚ), 0] 0 = [(1 : ℚ), 0].map (fun s =>
      tier_label (86/100 - 4/100 * 0)
        ((s - listMin [(1 : ℚ), 0]) /
          (if listMax [(1 : ℚ), 0] - listMin [(1 : ℚ), 0] ≠ 0
           then listMax [(1 : ℚ), 0] - listMin [(1 : ℚ), 0] else 1))) :=
  (assign_tier_correct [(1 : ℚ), 0] 0 (by norm_num) (by norm_num)).1

theorem clamp01_bounds (x : ℚ) : 0 ≤ clamp01 x ∧ clamp01 x ≤ 1 := by
  unfold clamp01
  split_ifs <;> constructor <;> linarith

theorem indexedFrom_all_none (k : Nat) (vs : List Val)
    (h : ∀ v ∈ vs, safe_float v = none) : indexedFrom k vs = [] := by
  induction vs generalizing k with
  | nil => rfl
  | cons v vs ih =>
    unfold indexedFrom
    rw [h v (List.mem_cons_self v vs)]
    exact ih (k + 1) (fun w hw => h w (List.mem_cons_of_mem v hw))

theorem filter_replicate_zero (n : Nat) :
    ((List.replicate n (0 : ℚ)).filter (fun p => decide (4/5 ≤ p))) = [] := by
  induction n with
  | zero => rfl
  | succ n ih =>
    rw [List.replicate_succ, List.filter_cons]
    have : (decide ((4 : ℚ)/5 ≤ 0)) = false := by norm_num
    rw [this]
    exact ih

theorem percentile_rank_all_none (vs : List Val)
    (h : ∀ v ∈ vs, safe_float v = none) :
    percentile_rank vs = List.replicate vs.length 0 := by
  unfold percentile_rank
  rw [indexedFrom_all_none 0 vs h]
  rfl

/-- Claim C2 (amended): looseness selects the eligible entities (priced
salary > 0 and a median projection) among the fetched active rows, takes the
percentile rank of points-per-$1000 across them, counts ranks ≥ 0.80, and
returns `clamp01((high − 12)/24)`, always in [0, 1]; the neutral 0.5 default
applies only when the query returns no rows at all — when rows exist but none
is eligible the high count is 0 and the result is 0, not 0.5. -/
theorem estimate_looseness_correct (rows : List SlateValueRow) :
    (0 ≤ _estimate_looseness rows ∧ _estimate_looseness rows ≤ 1) ∧
    (rows = [] → _estimate_looseness rows = 1/2) ∧
    (rows ≠ [] → _estimate_looseness rows =
      clamp01 (((((percentile_rank_f (rows.map looseness_val)).filter
        (fun p => 4/5 ≤ p)).length : ℚ) - 12) / 24)) ∧
    (∀ r, looseness_val r = none ↔ eligible r = false) ∧
    (rows ≠ [] → (∀ r ∈ rows, eligible r = false) → _estimate_looseness rows = 0) := by
  have hchar : ∀ r : SlateValueRow, looseness_val r = none ↔ eligible r = false := by
    intro r
    unfold looseness_val eligible
    rcases hm : safe_float r.proj_points_median with _ | pts <;>
      rcases hs2 : safe_float r.salary with _ | sal
    · simp
    · simp
    · simp
    · simp only [decide_eq_false_iff_not, not_lt]
      constructor
      · intro h
        by_cases hle : sal ≤ 0
        · exact hle
        · rw [if_neg hle] at h; cases h
      · intro h
        rw [if_pos h]
  refine ⟨?_, ?_, ?_, hchar, ?_⟩
  · unfold _estimate_looseness
    split_ifs
    · norm_num
    · exact ⟨(clamp01_bounds _).1, (clamp01_bounds _).2⟩
  · intro h
    unfold _estimate_looseness
    rw [if_pos h]
  · intro h
    unfold _estimate_looseness
    rw [if_neg h]
  · intro h hall
    unfold _estimate_looseness
    rw [if_neg h]
    have hnone : ∀ v ∈ (rows.map looseness_val).map optVal, safe_float v = none := by
      intro v hv
      rcases List.mem_map.mp hv with ⟨o, ho, rfl⟩
      rcases List.mem_map.mp ho with ⟨r, hr, rfl⟩
      have := (hchar r).mpr (hall r hr)
      rw [safe_float_optVal, this]
    have hpr : percentile_rank_f (rows.map looseness_val) =
        List.replicate ((rows.map looseness_val).map optVal).length 0 := by
      unfold percentile_rank_f
      exact percentile_rank_all_none _ hnone
    rw [hpr]
    have hfilter := filter_replicate_zero (((rows.map looseness_val).map optVal).length)
    simp only [decide_eq_true_eq] at hfilter ⊢
    rw [hfilter]
    unfold clamp01
    norm_num

/-- Witness for C2 (amended): one active row priced at 0 with a projection of
10 points is ineligible, and the estimate over just that row is 0. -/
theorem estimate_looseness_correct_witness :
    _estimate_looseness [⟨Val.vnum 10, Val.vnum 0⟩] = 0 :=
  (estimate_looseness_correct [⟨Val.vnum 10, Val.vnum 0⟩]).2.2.2.2
    (by simp)
    (by
      intro r hr
      simp only [List.mem_singleton] at hr
      subst hr
      simp [eligible, safe_float])

/-- Claim C2 counterexample: a slate whose only active priced row has salary
0 has no eligible entity, yet the estimate is 0, not the neutral 0.5 the
claim asserts for the no-eligible-entity case. -/
theorem estimate_looseness_no_eligible_cx :
    eligible ⟨Val.vnum 10, Val.vnum 0⟩ = false ∧
    _estimate_looseness [⟨Val.vnum 10, Val.vnum 0⟩] = 0 ∧
    (0 : ℚ) ≠ 1/2 := by
  refine ⟨?_, ?_, by norm_num⟩
  · simp [eligible, safe_float]
  · have hval : looseness_val ⟨Val.vnum 10, Val.vnum 0⟩ = none := by
      simp [looseness_val, safe_float]
    simp only [_estimate_looseness, List.map_cons, List.map_nil, hval]
    rw [if_neg (by simp)]
    simp only [percentile_rank_f, List.map_cons, List.map_nil, optVal]
    rw [percentile_rank_all_none [Val.vnone] (by intro v hv; simp at hv; subst hv; rfl)]
    simp only [List.length_cons, List.length_nil, List.replicate, List.filter]
    have : (decide ((4 : ℚ)/5 ≤ 0)) = false := by norm_num
    rw [this]
    simp only [List.length_nil]
    unfold clamp01
    norm_num

theorem write_rankings_inserted (r : RankingResults) (ts : Nat) :
    (r.by_position.map (fun pe => pe.2.map (rowOf ts))).flatten =
      (allEntities r).map (rowOf ts) := by
  unfold allEntities
  rw [List.map_flatten, List.map_map]
  rfl

/-- Claim C9: `write_rankings` with `replace` deletes every stored row of the
slate and inserts one row per ranked entity, so calling it twice with the same
results is idempotent: the final store equals the store after a single call,
holding exactly one row per ranked entity for the slate (no duplication), with
identical contents apart from the write-time timestamp.  The hypothesis — met
by every result `rank_slate_positions` builds — is that each ranked entity
carries the result set's slate id. -/
theorem write_rankings_replace_idempotent (r : RankingResults) (ts1 ts2 : Nat)
    (store : List HeuristicRankRow)
    (hwf : ∀ e ∈ allEntities r, e.slate_id = r.slate_id) :
    (write_rankings true ts2 r (write_rankings true ts1 r store) =
      write_rankings true ts2 r store) ∧
    ((write_rankings true ts2 r (write_rankings true ts1 r store)).filter
        (fun row => row.slate_id == r.slate_id) =
      (allEntities r).map (rowOf ts2)) := by
  have hnew : ∀ ts : Nat, ∀ row ∈ (allEntities r).map (rowOf ts),
      row.slate_id = r.slate_id := by
    intro ts row hrow
    rcases List.mem_map.mp hrow with ⟨e, he, rfl⟩
    exact hwf e he
  have hfilter_new : ∀ ts : Nat,
      ((allEntities r).map (rowOf ts)).filter
        (fun row => !(row.slate_id == r.slate_id)) = [] := by
    intro ts
    rw [List.filter_eq_nil_iff]
    intro row hrow
    simp [hnew ts row hrow]
  have hfilter_keep : ∀ ts : Nat,
      ((allEntities r).map (rowOf ts)).filter
        (fun row => row.slate_id == r.slate_id) = (allEntities r).map (rowOf ts) := by
    intro ts
    rw [List.filter_eq_self]
    intro row hrow
    simp [hnew ts row hrow]
  have hstore2 : ∀ (l : List HeuristicRankRow),
      (l.filter (fun row => !(row.slate_id == r.slate_id))).filter
        (fun row => !(row.slate_id == r.slate_id)) =
      l.filter (fun row => !(row.slate_id == r.slate_id)) := by
    intro l
    rw [List.filter_filter]
    apply List.filter_congr
    intro row _
    cases h : (row.slate_id == r.slate_id) <;> simp [h]
  have hcross : ∀ (l : List HeuristicRankRow),
      (l.filter (fun row => !(row.slate_id == r.slate_id))).filter
        (fun row => row.slate_id == r.slate_id) = [] := by
    intro l
    rw [List.filter_filter, List.filter_eq_nil_iff]
    intro row _
    cases h : (row.slate_id == r.slate_id) <;> simp [h]
  constructor
  · unfold write_rankings
    simp only [if_true, write_rankings_inserted]
    rw [List.filter_append, hstore2 store, hfilter_new ts1, List.append_nil]
  · unfold write_rankings
    simp only [if_true, write_rankings_inserted]
    rw [List.filter_append, List.filter_append, hstore2 store, hfilter_new ts1,
      List.append_nil, hcross store, List.nil_append, hfilter_keep ts2]

/-- Witness for C9: a one-entity result set written twice over an empty
store. -/
theorem write_rankings_replace_idempotent_witness :
    write_rankings true 2 ⟨"s", "DK", 0,
        [("QB", [⟨"s", "PLAYER", "QB", "p1", "N", none, none, 5000, 1, none, 1, "must", []⟩])]⟩
      (write_rankings true 1 ⟨"s", "DK", 0,
        [("QB", [⟨"s", "PLAYER", "QB", "p1", "N", none, none, 5000, 1, none, 1, "must", []⟩])]⟩ []) =
    write_rankings true 2 ⟨"s", "DK", 0,
        [("QB", [⟨"s", "PLAYER", "QB", "p1", "N", none, none, 5000, 1, none, 1, "must", []⟩])]⟩ [] :=
  (write_rankings_replace_idempotent _ 1 2 []
    (by
      intro e he
      simp only [allEntities, List.map_cons, List.map_nil, List.flatten,
        List.append_nil, List.mem_cons, List.not_mem_nil, or_false,
        List.mem_singleton] at he
      subst he
      rfl)).1

theorem length_foldl_set (asg : List (Nat × ℚ)) :
    ∀ init : List ℚ, (asg.foldl (fun acc p => acc.set p.1 p.2) init).length = init.length := by
  induction asg with
  | nil => intro init; rfl
  | cons p asg ih =>
    intro init
    rw [List.foldl_cons, ih (init.set p.1 p.2), List.length_set]

theorem length_percentile_rank (vs : List Val) :
    (percentile_rank vs).length = vs.length := by
  unfold percentile_rank
  dsimp only
  split_ifs
  · rw [List.length_replicate]
  · rw [length_foldl_set, List.length_replicate]

theorem length_percentile_rank_f (vs : List (Option ℚ)) :
    (percentile_rank_f vs).length = vs.length := by
  unfold percentile_rank_f
  rw [length_percentile_rank, List.length_map]

theorem length_build_features (pos : String) (rows : List Row) :
    (build_features pos rows).length = rows.length := by
  unfold build_features build_features_qb build_features_rb build_features_wr build_features_te
  split_ifs <;> rw [List.length_map, List.enum_length]

theorem length_score_rows (pos : String) (w : List (String × ℚ)) (rows : List Row)
    (feats : List (List (String × ℚ))) (h : feats.length = rows.length) :
    (score_rows pos w rows feats).length = rows.length := by
  unfold score_rows
  rw [List.length_map, List.length_zip, h, Nat.min_self]

theorem length_build_features_dst (rows : List Row) (site : String) :
    (build_features_dst rows site).length = rows.length := by
  unfold build_features_dst
  dsimp only
  rw [List.length_map, List.enum_length]

theorem length_dst_score_rows (site : String) (w : List (String × ℚ)) (rows : List Row)
    (feats : List (List (String × ℚ))) (h : feats.length = rows.length) :
    (dst_score_rows site w rows feats).length = rows.length := by
  unfold dst_score_rows
  rw [List.length_map, List.length_zip, h, Nat.min_self]

theorem length_idxFrom (k : Nat) (l : List ℚ) : (idxFrom k l).length = l.length := by
  induction l generalizing k with
  | nil => rfl
  | cons s ss ih =>
    unfold idxFrom
    rw [List.length_cons, List.length_cons, ih (k + 1)]

theorem length_insertScoreDesc (x : Nat × ℚ) (l : List (Nat × ℚ)) :
    (insertScoreDesc x l).length = l.length + 1 := by
  induction l with
  | nil => rfl
  | cons y ys ih =>
    unfold insertScoreDesc
    split_ifs
    · rfl
    · rw [List.length_cons, ih, List.length_cons]

theorem length_sortScoreDesc (l : List (Nat × ℚ)) :
    (sortScoreDesc l).length = l.length := by
  induction l with
  | nil => rfl
  | cons x xs ih =>
    unfold sortScoreDesc
    rw [length_insertScoreDesc, ih, List.length_cons]

theorem length_assign_tier (scores : List ℚ) (l : ℚ) :
    (assign_tier scores l).length = scores.length := by
  unfold assign_tier
  split_ifs with h
  · rw [h]; rfl
  · rw [List.length_map, List.length_map]

theorem appendLoop_none {α : Type} (l : List α) :
    ∀ k : Nat, appendLoop none l k = l := by
  induction l with
  | nil => intro k; rfl
  | cons x xs ih =>
    intro k
    unfold appendLoop
    rw [ih (k + 1)]

theorem appendLoop_some_length {α : Type} (m : Int) (l : List α) :
    ∀ k : Nat, (k : Int) < m → (appendLoop (some m) l k).length ≤ (m - k).toNat := by
  induction l with
  | nil =>
    intro k hk
    simp [appendLoop]
  | cons x xs ih =>
    intro k hk
    unfold appendLoop
    dsimp only
    by_cases hstop : (k + 1 : Int) ≥ m
    · rw [if_pos hstop]
      simp only [List.length_cons, List.length_nil]
      omega
    · rw [if_neg hstop]
      have := ih (k + 1) (by omega)
      simp only [List.length_cons]
      omega

theorem appendLoop_sublist {α : Type} (maxPer : Option Int) (l : List α) :
    ∀ k : Nat, (appendLoop maxPer l k).Sublist l := by
  induction l with
  | nil => intro k; exact List.Sublist.refl []
  | cons x xs ih =>
    intro k
    unfold appendLoop
    cases maxPer with
    | none => exact List.Sublist.cons₂ x (ih (k + 1))
    | some m =>
      dsimp only
      split_ifs
      · exact List.Sublist.cons₂ x (List.nil_sublist xs)
      · exact List.Sublist.cons₂ x (ih (k + 1))

theorem perm_insertScoreDesc (x : Nat × ℚ) (l : List (Nat × ℚ)) :
    (insertScoreDesc x l).Perm (x :: l) := by
  induction l with
  | nil => exact List.Perm.refl _
  | cons y ys ih =>
    unfold insertScoreDesc
    split_ifs
    · exact List.Perm.refl _
    · exact (List.Perm.cons y ih).trans (List.Perm.swap x y ys)

theorem perm_sortScoreDesc (l : List (Nat × ℚ)) : (sortScoreDesc l).Perm l := by
  induction l with
  | nil => exact List.Perm.refl _
  | cons x xs ih =>
    unfold sortScoreDesc
    exact (perm_insertScoreDesc x (sortScoreDesc xs)).trans (List.Perm.cons x ih)

theorem insertScoreDesc_pairwise (x : Nat × ℚ) (l : List (Nat × ℚ))
    (hl : l.Pairwise scoreOrder)
    (hx : ∀ y ∈ l, (y.2 ≤ x.2 → scoreOrder x y) ∧ (¬ y.2 ≤ x.2 → scoreOrder y x)) :
    (insertScoreDesc x l).Pairwise scoreOrder := by
  induction l with
  | nil => exact List.pairwise_singleton scoreOrder x
  | cons y ys ih =>
    unfold insertScoreDesc
    split_ifs with hc
    · rw [List.pairwise_cons]
      refine ⟨?_, hl⟩
      intro z hz
      rcases List.mem_cons.mp hz with h | hz
      · subst h
        exact (hx z (List.mem_cons_self z ys)).1 hc
      · have hyz := (List.pairwise_cons.mp hl).1 z hz
        have hz2 : z.2 ≤ x.2 := by
          rcases hyz with h | h
          · linarith
          · rw [← h.1]; exact hc
        exact (hx z (List.mem_cons_of_mem y hz)).1 hz2
    · rw [List.pairwise_cons]
      constructor
      · intro z hz
        have hz' := (perm_insertScoreDesc x ys).mem_iff.mp hz
        rcases List.mem_cons.mp hz' with rfl | hz'
        · exact (hx y (List.mem_cons_self y ys)).2 hc
        · exact (List.pairwise_cons.mp hl).1 z hz'
      · exact ih (List.pairwise_cons.mp hl).2
          (fun y' hy' => hx y' (List.mem_cons_of_mem y hy'))

theorem sortScoreDesc_pairwise (l : List (Nat × ℚ))
    (hidx : l.Pairwise (fun a b => a.1 < b.1)) :
    (sortScoreDesc l).Pairwise scoreOrder := by
  induction l with
  | nil => exact List.Pairwise.nil
  | cons x xs ih =>
    unfold sortScoreDesc
    have hx : ∀ y ∈ sortScoreDesc xs,
        (y.2 ≤ x.2 → scoreOrder x y) ∧ (¬ y.2 ≤ x.2 → scoreOrder y x) := by
      intro y hy
      have hmem : y ∈ xs := (perm_sortScoreDesc xs).mem_iff.mp hy
      have hxy : x.1 < y.1 := (List.pairwise_cons.mp hidx).1 y hmem
      constructor
      · intro hle
        rcases lt_or_eq_of_le hle with h | h
        · exact Or.inl h
        · exact Or.inr ⟨h.symm, hxy⟩
      · intro hlt
        exact Or.inl (lt_of_not_le hlt)
    exact insertScoreDesc_pairwise x (sortScoreDesc xs)
      (ih (List.pairwise_cons.mp hidx).2) hx

theorem mem_idxFrom_le (k : Nat) (l : List ℚ) : ∀ p ∈ idxFrom k l, k ≤ p.1 := by
  induction l generalizing k with
  | nil => intro p hp; cases hp
  | cons s ss ih =>
    intro p hp
    rcases List.mem_cons.mp hp with rfl | hp
    · exact le_refl _
    · exact le_trans (Nat.le_succ k) (ih (k + 1) p hp)

theorem idxFrom_fst_lt (k : Nat) (l : List ℚ) :
    (idxFrom k l).Pairwise (fun a b => a.1 < b.1) := by
  induction l generalizing k with
  | nil => exact List.Pairwise.nil
  | cons s ss ih =>
    unfold idxFrom
    rw [List.pairwise_cons]
    refine ⟨?_, ih (k + 1)⟩
    intro p hp
    exact lt_of_lt_of_le (Nat.lt_succ_self k) (mem_idxFrom_le (k + 1) ss p hp)

theorem mem_idxFrom (k : Nat) (l : List ℚ) (i : Nat) (s : ℚ) :
    (i, s) ∈ idxFrom k l ↔ ∃ j : Nat, i = k + j ∧ l[j]? = some s := by
  induction l generalizing k with
  | nil => simp [idxFrom]
  | cons v vs ih =>
    unfold idxFrom
    constructor
    · intro h
      rcases List.mem_cons.mp h with h | h
      · have h1 : i = k := (Prod.ext_iff.mp h).1
        have h2 : s = v := (Prod.ext_iff.mp h).2
        exact ⟨0, by omega, by simp [h2]⟩
      · rcases (ih (k + 1)).mp h with ⟨j, rfl, hj⟩
        exact ⟨j + 1, by omega, by simpa using hj⟩
    · rintro ⟨j, rfl, hj⟩
      cases j with
      | zero =>
        simp only [List.getElem?_cons_zero, Option.some.injEq] at hj
        subst hj
        exact List.mem_cons_self _ _
      | succ j =>
        simp only [List.getElem?_cons_succ] at hj
        refine List.mem_cons_of_mem _ ((ih (k + 1)).mpr ⟨j, by omega, hj⟩)

theorem group_emit_correct (scores : List ℚ) (l : ℚ) :
    (∀ maxPer, (appendLoop maxPer (((sortScoreDesc (idxFrom 0 scores)).zip
        (assign_tier ((sortScoreDesc (idxFrom 0 scores)).map Prod.snd) l)).map
        (fun pt => (pt.1.1, pt.1.2, pt.2))) 0).Pairwise
      (fun a b => b.2.1 < a.2.1 ∨ (a.2.1 = b.2.1 ∧ a.1 < b.1))) ∧
    (∀ maxPer, ∀ e ∈ appendLoop maxPer (((sortScoreDesc (idxFrom 0 scores)).zip
        (assign_tier ((sortScoreDesc (idxFrom 0 scores)).map Prod.snd) l)).map
        (fun pt => (pt.1.1, pt.1.2, pt.2))) 0,
      scores[e.1]? = some e.2.1) ∧
    ((appendLoop none (((sortScoreDesc (idxFrom 0 scores)).zip
        (assign_tier ((sortScoreDesc (idxFrom 0 scores)).map Prod.snd) l)).map
        (fun pt => (pt.1.1, pt.1.2, pt.2))) 0).length = scores.length) ∧
    (∀ m : Int, 1 ≤ m →
      (appendLoop (some m) (((sortScoreDesc (idxFrom 0 scores)).zip
        (assign_tier ((sortScoreDesc (idxFrom 0 scores)).map Prod.snd) l)).map
        (fun pt => (pt.1.1, pt.1.2, pt.2))) 0).length ≤ m.toNat) ∧
    ((appendLoop default_max_per_position (((sortScoreDesc (idxFrom 0 scores)).zip
        (assign_tier ((sortScoreDesc (idxFrom 0 scores)).map Prod.snd) l)).map
        (fun pt => (pt.1.1, pt.1.2, pt.2))) 0).length ≤ 30) := by
  set sorted := sortScoreDesc (idxFrom 0 scores) with hsorted_def
  set tiers := assign_tier (sorted.map Prod.snd) l with htiers_def
  have hlen_sorted : sorted.length = scores.length := by
    rw [hsorted_def, length_sortScoreDesc, length_idxFrom]
  have hlen_tiers : tiers.length = sorted.length := by
    rw [htiers_def, length_assign_tier, List.length_map]
  set out0 := ((sorted.zip tiers).map (fun pt => (pt.1.1, pt.1.2, pt.2))) with hout0_def
  have hlen_out0 : out0.length = scores.length := by
    rw [hout0_def, List.length_map, List.length_zip, hlen_tiers, Nat.min_self, hlen_sorted]
  have hsorted_pw : sorted.Pairwise scoreOrder :=
    sortScoreDesc_pairwise _ (idxFrom_fst_lt 0 scores)
  have hzip_pw : (sorted.zip tiers).Pairwise (fun a b => scoreOrder a.1 b.1) := by
    apply List.pairwise_map.mp
    rw [List.map_fst_zip sorted tiers (le_of_eq hlen_tiers.symm)]
    exact hsorted_pw
  have hout0_pw : out0.Pairwise
      (fun (a b : Nat × ℚ × String) => b.2.1 < a.2.1 ∨ (a.2.1 = b.2.1 ∧ a.1 < b.1)) :=
    List.pairwise_map.mpr (hzip_pw.imp (fun h => h))
  refine ⟨?_, ?_, ?_, ?_, ?_⟩
  · intro maxPer
    exact hout0_pw.sublist (appendLoop_sublist maxPer out0 0)
  · intro maxPer e he
    have he0 : e ∈ out0 := (appendLoop_sublist maxPer out0 0).subset he
    rcases List.mem_map.mp he0 with ⟨pt, hpt, rfl⟩
    obtain ⟨⟨i, sc⟩, t⟩ := pt
    have hmem : (i, sc) ∈ sorted := (List.of_mem_zip hpt).1
    have hmem' : (i, sc) ∈ idxFrom 0 scores := (perm_sortScoreDesc _).mem_iff.mp hmem
    rcases (mem_idxFrom 0 scores i sc).mp hmem' with ⟨j, hj, hval⟩
    have : i = j := by omega
    subst this
    exact hval
  · rw [appendLoop_none, hlen_out0]
  · intro m hm
    have := appendLoop_some_length m out0 0 (by omega)
    omega
  · rw [show default_max_per_position = some (30 : Int) from rfl]
    have := appendLoop_some_length 30 out0 0 (by omega)
    omega

/-- Claim C7 (amended): within one position group — each of the four player
groups and the DST group, which share the same sort/tier/emit loop — the
emitted entries are ordered by strictly descending final score with ties
broken by input row order (the sorts are stable), and each entry carries its
own input row's final score; with no cap the whole group is emitted; a
supplied cap m ≥ 1 truncates to at most m entries, and the default cap is 30.
(A non-positive supplied cap still emits one entry for a non-empty group,
because both loops check the cap only after appending — see the
counterexample.) -/
theorem rank_group_correct (pos site : String) (tight loose dtight dloose : List (String × ℚ))
    (rows drows : List Row) (l : ℚ) :
    (∀ maxPer, (rank_player_group pos tight loose rows l maxPer).Pairwise
      (fun a b => b.2.1 < a.2.1 ∨ (a.2.1 = b.2.1 ∧ a.1 < b.1))) ∧
    (∀ maxPer, ∀ e ∈ rank_player_group pos tight loose rows l maxPer,
      (score_rows pos (blendWeights l tight loose) rows (build_features pos rows))[e.1]? =
        some e.2.1) ∧
    ((rank_player_group pos tight loose rows l none).length = rows.length) ∧
    (∀ m : Int, 1 ≤ m →
      (rank_player_group pos tight loose rows l (some m)).length ≤ m.toNat) ∧
    ((rank_player_group pos tight loose rows l default_max_per_position).length ≤ 30) ∧
    (∀ maxPer, (rank_dst_group site dtight dloose drows l maxPer).Pairwise
      (fun a b => b.2.1 < a.2.1 ∨ (a.2.1 = b.2.1 ∧ a.1 < b.1))) ∧
    (∀ maxPer, ∀ e ∈ rank_dst_group site dtight dloose drows l maxPer,
      (dst_score_rows site (blendWeights l dtight dloose) drows
        (build_features_dst drows site))[e.1]? = some e.2.1) ∧
    ((rank_dst_group site dtight dloose drows l none).length = drows.length) ∧
    (∀ m : Int, 1 ≤ m →
      (rank_dst_group site dtight dloose drows l (some m)).length ≤ m.toNat) ∧
    ((rank_dst_group site dtight dloose drows l default_max_per_position).length ≤ 30) := by
  have hfeats := length_build_features pos rows
  have hscores := length_score_rows pos (blendWeights l tight loose) rows
    (build_features pos rows) hfeats
  have hdfeats := length_build_features_dst drows site
  have hdscores := length_dst_score_rows site (blendWeights l dtight dloose) drows
    (build_features_dst drows site) hdfeats
  obtain ⟨hp1, hp2, hp3, hp4, hp5⟩ :=
    group_emit_correct (score_rows pos (blendWeights l tight loose) rows
      (build_features pos rows)) l
  obtain ⟨hd1, hd2, hd3, hd4, hd5⟩ :=
    group_emit_correct (dst_score_rows site (blendWeights l dtight dloose) drows
      (build_features_dst drows site)) l
  have heqp : ∀ maxPer, rank_player_group pos tight loose rows l maxPer =
      appendLoop maxPer (((sortScoreDesc (idxFrom 0 (score_rows pos
        (blendWeights l tight loose) rows (build_features pos rows)))).zip
        (assign_tier ((sortScoreDesc (idxFrom 0 (score_rows pos
          (blendWeights l tight loose) rows (build_features pos rows)))).map Prod.snd) l)).map
        (fun pt => (pt.1.1, pt.1.2, pt.2))) 0 := fun _ => rfl
  have heqd : ∀ maxPer, rank_dst_group site dtight dloose drows l maxPer =
      appendLoop maxPer (((sortScoreDesc (idxFrom 0 (dst_score_rows site
        (blendWeights l dtight dloose) drows (build_features_dst drows site)))).zip
        (assign_tier ((sortScoreDesc (idxFrom 0 (dst_score_rows site
          (blendWeights l dtight dloose) drows
          (build_features_dst drows site)))).map Prod.snd) l)).map
        (fun pt => (pt.1.1, pt.1.2, pt.2))) 0 := fun _ => rfl
  refine ⟨?_, ?_, ?_, ?_, ?_, ?_, ?_, ?_, ?_, ?_⟩
  · intro maxPer
    rw [heqp maxPer]
    exact hp1 maxPer
  · intro maxPer e he
    rw [heqp maxPer] at he
    exact hp2 maxPer e he
  · rw [heqp none, hp3, hscores]
  · intro m hm
    rw [heqp (some m)]
    exact hp4 m hm
  · rw [heqp default_max_per_position]
    exact hp5
  · intro maxPer
    rw [heqd maxPer]
    exact hd1 maxPer
  · intro maxPer e he
    rw [heqd maxPer] at he
    exact hd2 maxPer e he
  · rw [heqd none, hd3, hdscores]
  · intro m hm
    rw [heqd (some m)]
    exact hd4 m hm
  · rw [heqd default_max_per_position]
    exact hd5

/-- Witness for C7 (amended): a supplied cap of 1 bounds the output length of
a player group and of the DST group. -/
theorem rank_group_correct_witness :
    (rank_player_group "QB" [] [] [] 0 (some 1)).length ≤ (1 : Int).toNat ∧
    (rank_dst_group "DK" [] [] [] 0 (some 1)).length ≤ (1 : Int).toNat := by
  obtain ⟨-, -, -, hp, -, -, -, -, hd, -⟩ :=
    rank_group_correct "QB" "DK" [] [] [] [] [] [] 0
  exact ⟨hp 1 (by norm_num), hd 1 (by norm_num)⟩

theorem appendLoop_cap_le {α : Type} (m : Int) (x : α) (xs : List α) (k : Nat)
    (h : (k + 1 : Int) ≥ m) : appendLoop (some m) (x :: xs) k = [x] := by
  unfold appendLoop
  dsimp only
  rw [if_pos h]

/-- Claim C7 counterexample: with a supplied maximum of 0 and one input row,
the emitted list still holds one entry (the truncation check runs only after
an append), so its length exceeds the supplied maximum. -/
theorem rank_player_group_cap_zero_cx :
    (rank_player_group "QB" [] [] [fun _ => Val.vnone] 0 (some 0)).length = 1 ∧
    ¬ ((1 : Nat) ≤ 0) := by
  constructor
  · have hfeats := length_build_features "QB" [fun _ => Val.vnone]
    have hscores := length_score_rows "QB" (blendWeights 0 [] []) [fun _ => Val.vnone]
      (build_features "QB" [fun _ => Val.vnone]) hfeats
    set scores := score_rows "QB" (blendWeights 0 [] []) [fun _ => Val.vnone]
      (build_features "QB" [fun _ => Val.vnone]) with hscores_def
    set sorted := sortScoreDesc (idxFrom 0 scores) with hsorted_def
    set tiers := assign_tier (sorted.map Prod.snd) 0 with htiers_def
    have hlen_sorted : sorted.length = scores.length := by
      rw [hsorted_def, length_sortScoreDesc, length_idxFrom]
    have hlen_tiers : tiers.length = sorted.length := by
      rw [htiers_def, length_assign_tier, List.length_map]
    set out0 := ((sorted.zip tiers).map (fun pt => (pt.1.1, pt.1.2, pt.2))) with hout0_def
    have hlen_out0 : out0.length = 1 := by
      rw [hout0_def, List.length_map, List.length_zip, hlen_tiers, Nat.min_self,
        hlen_sorted, hscores, List.length_cons, List.length_nil]
    rcases List.length_eq_one.mp hlen_out0 with ⟨y, hy⟩
    have heq : rank_player_group "QB" [] [] [fun _ => Val.vnone] 0 (some 0) =
        appendLoop (some 0) out0 0 := rfl
    rw [heq, hy, appendLoop_cap_le 0 y [] 0 (by norm_num)]
    rfl
  · omega


theorem percentile_two_desc (a b : ℚ) (hab : a < b) :
    percentile_rank_f [some b, some a] = [1, 0] := by
  have hd1 : (decide (b = a)) = false := decide_eq_false (by intro h; exact absurd h (by linarith))
  have hd2 : (b ≤ a) = False := eq_false (not_le.mpr hab)
  norm_num [percentile_rank_f, percentile_rank, optVal, indexedFrom, safe_float,
    assignRuns, assignRunsF, sortAsc, insertAsc, groupPr, List.takeWhile, List.dropWhile,
    List.replicate, List.set, hd1, hd2]

theorem percentile_two_asc (a b : ℚ) (hab : a < b) :
    percentile_rank_f [some a, some b] = [0, 1] := by
  have hd1 : (decide (b = a)) = false := decide_eq_false (by intro h; exact absurd h (by linarith))
  have hd2 : (a ≤ b) = True := eq_true (le_of_lt hab)
  norm_num [percentile_rank_f, percentile_rank, optVal, indexedFrom, safe_float,
    assignRuns, assignRunsF, sortAsc, insertAsc, groupPr, List.takeWhile, List.dropWhile,
    List.replicate, List.set, hd1, hd2]

set_option maxHeartbeats 1000000 in
/-- Claim C6 counterexample: at looseness 1, a QB group of two rows in which
the status-"out" row leads every category tiers that row "must": its blended
base 1.00 less the 1.0 status floor plus the 0.02 rush bonus still tops the
group, and min-max normalization hands the group leader the "must" tier
regardless of the floor. -/
theorem out_status_must_tier_cx :
    rank_player_group "QB" qb_profile.tight.weights qb_profile.loose.weights
        [qbOutX, qbActiveY] 1 none = [(0, 1/50, "must"), (1, 0, "fade")] ∧
    pyStrip (pyUpper (statusOf (qbOutX "status"))) = "OUT" := by
  constructor
  · have e1 := percentile_two_desc 20 30 (by norm_num)
    have e2 := percentile_two_desc 10 20 (by norm_num)
    have e3 := percentile_two_desc 3 4 (by norm_num)
    have e4 := percentile_two_desc 30 40 (by norm_num)
    have e5 := percentile_two_desc 2 8 (by norm_num)
    have e6 := percentile_two_desc 1 2 (by norm_num)
    have e7 := percentile_two_desc 20 28 (by norm_num)
    have e8 := percentile_two_asc (1/5) (2/5) (by norm_num)
    have e9 := percentile_two_asc (1/2) 1 (by norm_num)
    have hm1 : [qbOutX, qbActiveY].map (fun r => _get r "proj_points_median") =
        [some 30, some 20] := rfl
    have hm2 : [qbOutX, qbActiveY].map (fun r => _get r "proj_points_floor") =
        [some 20, some 10] := rfl
    have hm3 : [qbOutX, qbActiveY].map (fun r => _get r "value_pts_per_1k") =
        [some 4, some 3] := rfl
    have hm4 : [qbOutX, qbActiveY].map (fun r => _get r "proj_dropbacks") =
        [some 40, some 30] := rfl
    have hm5 : [qbOutX, qbActiveY].map (fun r => _get r "proj_rush_attempts") =
        [some 8, some 2] := rfl
    have hm6 : [qbOutX, qbActiveY].map (fun r => _get r "proj_goal_line_rush_att") =
        [some 2, some 1] := rfl
    have hm7 : [qbOutX, qbActiveY].map (fun r => _get r "team_implied_points") =
        [some 28, some 20] := rfl
    have hm8 : [qbOutX, qbActiveY].map (fun r => _get r "opp_pressure_rate") =
        [some (1/5), some (2/5)] := rfl
    have hm9 : [qbOutX, qbActiveY].map (fun r => _get r "proj_interceptions") =
        [some (1/2), some 1] := rfl
    have hflagX : _bool01 (qbOutX "qb_rush_upside_flag") = 1 := rfl
    have hflagY : _bool01 (qbActiveY "qb_rush_upside_flag") = 0 := rfl
    have hfeats : build_features "QB" [qbOutX, qbActiveY] = [qbFeatsX, qbFeatsY] := by
      norm_num [build_features, build_features_qb, qbFeatsX, qbFeatsY, hm1, hm2, hm3,
        hm4, hm5, hm6, hm7, hm8, hm9, hflagX, hflagY, e1, e2, e3, e4, e5, e6, e7, e8, e9,
        List.enum, List.enumFrom, List.getD, Option.getD, invert01, clamp01]
    have hw : blendWeights 1 qb_profile.tight.weights qb_profile.loose.weights =
        [("median", 3/10), ("floor", 3/25), ("value", 1/10), ("dropbacks", 1/10),
         ("rush_att", 9/50), ("gl_rush", 1/20), ("implied", 2/25),
         ("low_pressure", 3/100), ("low_ints", 1/25)] := by
      have h0 : blendWeights 1 qb_profile.tight.weights qb_profile.loose.weights =
          [("median", (1 - 1) * (22/100) + 1 * (30/100)),
           ("floor", (1 - 1) * (14/100) + 1 * (12/100)),
           ("value", (1 - 1) * (16/100) + 1 * (10/100)),
           ("dropbacks", (1 - 1) * (10/100) + 1 * (10/100)),
           ("rush_att", (1 - 1) * (14/100) + 1 * (18/100)),
           ("gl_rush", (1 - 1) * (4/100) + 1 * (5/100)),
           ("implied", (1 - 1) * (6/100) + 1 * (8/100)),
           ("low_pressure", (1 - 1) * (4/100) + 1 * (3/100)),
           ("low_ints", (1 - 1) * (6/100) + 1 * (4/100))] := rfl
      rw [h0]
      norm_num
    have hqbrb : ("QB" = "RB") = False := by simp
    have hqbwr : ("QB" = "WR") = False := by simp
    have hqbte : ("QB" = "TE") = False := by simp
    have hsX : player_final "QB"
        [("median", 3/10), ("floor", 3/25), ("value", 1/10), ("dropbacks", 1/10),
         ("rush_att", 9/50), ("gl_rush", 1/20), ("implied", 2/25),
         ("low_pressure", 3/100), ("low_ints", 1/25)] qbOutX qbFeatsX = 1/50 := by
      have hstX : pyStrip (pyUpper (statusOf (qbOutX "status"))) = "OUT" := rfl
      have hso : ("OUT" = "O") = False := by simp
      have lx1 : lookupD qbFeatsX "median" 0 = 1 := rfl
      have lx2 : lookupD qbFeatsX "floor" 0 = 1 := rfl
      have lx3 : lookupD qbFeatsX "value" 0 = 1 := rfl
      have lx4 : lookupD qbFeatsX "dropbacks" 0 = 1 := rfl
      have lx5 : lookupD qbFeatsX "rush_att" 0 = 1 := rfl
      have lx6 : lookupD qbFeatsX "gl_rush" 0 = 1 := rfl
      have lx7 : lookupD qbFeatsX "implied" 0 = 1 := rfl
      have lx8 : lookupD qbFeatsX "low_pressure" 0 = 1 := rfl
      have lx9 : lookupD qbFeatsX "low_ints" 0 = 1 := rfl
      have lxf : lookupD qbFeatsX "qb_rush_upside_flag" 0 = 1 := rfl
      have lxc : lookupD qbFeatsX "committee_risk_flag" 0 = 0 := rfl
      have lxb : lookupD qbFeatsX "boom_bust_flag" 0 = 0 := rfl
      have lxt : lookupD qbFeatsX "td_or_bust_flag" 0 = 0 := rfl
      norm_num [player_final, linear_score, apply_penalties, hstX, hso, hqbrb, hqbwr,
        hqbte, lx1, lx2, lx3, lx4, lx5, lx6, lx7, lx8, lx9, lxf, lxc, lxb, lxt, clamp01]
    have hsY : player_final "QB"
        [("median", 3/10), ("floor", 3/25), ("value", 1/10), ("dropbacks", 1/10),
         ("rush_att", 9/50), ("gl_rush", 1/20), ("implied", 2/25),
         ("low_pressure", 3/100), ("low_ints", 1/25)] qbActiveY qbFeatsY = 0 := by
      have hstY : pyStrip (pyUpper (statusOf (qbActiveY "status"))) = "" := rfl
      have hy1 : ("" = "O") = False := by simp
      have hy2 : ("" = "OUT") = False := by simp
      have hy3 : ("" = "IR") = False := by simp
      have ly1 : lookupD qbFeatsY "median" 0 = 0 := rfl
      have ly2 : lookupD qbFeatsY "floor" 0 = 0 := rfl
      have ly3 : lookupD qbFeatsY "value" 0 = 0 := rfl
      have ly4 : lookupD qbFeatsY "dropbacks" 0 = 0 := rfl
      have ly5 : lookupD qbFeatsY "rush_att" 0 = 0 := rfl
      have ly6 : lookupD qbFeatsY "gl_rush" 0 = 0 := rfl
      have ly7 : lookupD qbFeatsY "implied" 0 = 0 := rfl
      have ly8 : lookupD qbFeatsY "low_pressure" 0 = 0 := rfl
      have ly9 : lookupD qbFeatsY "low_ints" 0 = 0 := rfl
      have lyf : lookupD qbFeatsY "qb_rush_upside_flag" 0 = 0 := rfl
      have lyc : lookupD qbFeatsY "committee_risk_flag" 0 = 0 := rfl
      have lyb : lookupD qbFeatsY "boom_bust_flag" 0 = 0 := rfl
      have lyt : lookupD qbFeatsY "td_or_bust_flag" 0 = 0 := rfl
      norm_num [player_final, linear_score, apply_penalties, hstY, hy1, hy2, hy3, hqbrb,
        hqbwr, hqbte, ly1, ly2, ly3, ly4, ly5, ly6, ly7, ly8, ly9, lyf, lyc, lyb, lyt,
        clamp01]
    unfold rank_player_group
    rw [hfeats, hw]
    have hscores : score_rows "QB"
        [("median", 3/10), ("floor", 3/25), ("value", 1/10), ("dropbacks", 1/10),
         ("rush_att", 9/50), ("gl_rush", 1/20), ("implied", 2/25),
         ("low_pressure", 3/100), ("low_ints", 1/25)] [qbOutX, qbActiveY]
        [qbFeatsX, qbFeatsY] =
        [player_final "QB"
          [("median", 3/10), ("floor", 3/25), ("value", 1/10), ("dropbacks", 1/10),
           ("rush_att", 9/50), ("gl_rush", 1/20), ("implied", 2/25),
           ("low_pressure", 3/100), ("low_ints", 1/25)] qbOutX qbFeatsX,
         player_final "QB"
          [("median", 3/10), ("floor", 3/25), ("value", 1/10), ("dropbacks", 1/10),
           ("rush_att", 9/50), ("gl_rush", 1/20), ("implied", 2/25),
           ("low_pressure", 3/100), ("low_ints", 1/25)] qbActiveY qbFeatsY] := rfl
    dsimp only
    rw [hscores, hsX, hsY]
    norm_num [idxFrom, sortScoreDesc, insertScoreDesc, assign_tier, listMin, listMax,
      clamp01, List.foldl, appendLoop, List.zip, List.zipWith, min_def, max_def]
  · rfl

theorem lookupD_nonneg (m : List (String × ℚ)) (k : String)
    (h : ∀ kw ∈ m, 0 ≤ kw.2) : 0 ≤ lookupD m k 0 := by
  rcases hf : m.find? (fun kv => kv.1 == k) with _ | kv
  · simp only [lookupD, hf]
    exact le_refl (0 : ℚ)
  · simp only [lookupD, hf]
    exact h kv (List.mem_of_find?_eq_some hf)

theorem linear_total_le_sum (f w : List (String × ℚ)) (h : ∀ kw ∈ w, 0 ≤ kw.2) :
    (linear_score f w).1 ≤ (w.map Prod.snd).sum := by
  unfold linear_score
  dsimp only
  rw [List.map_map]
  apply List.sum_le_sum
  intro kw hkw
  calc (Prod.snd ∘ fun kw => (kw.1, kw.2 * clamp01 (lookupD f kw.1 0))) kw
      = kw.2 * clamp01 (lookupD f kw.1 0) := rfl
    _ ≤ kw.2 * 1 := mul_le_mul_of_nonneg_left (clamp01_bounds _).2 (h kw hkw)
    _ = kw.2 := mul_one _

theorem blendWeights_nonneg (l : ℚ) (tight loose : List (String × ℚ))
    (h0 : 0 ≤ l) (h1 : l ≤ 1)
    (ht : ∀ kw ∈ tight, 0 ≤ kw.2) (hl : ∀ kw ∈ loose, 0 ≤ kw.2) :
    ∀ kw ∈ blendWeights l tight loose, 0 ≤ kw.2 := by
  intro kw hkw
  rcases List.mem_map.mp hkw with ⟨k, _, rfl⟩
  have ha := lookupD_nonneg tight k ht
  have hb := lookupD_nonneg loose k hl
  have : 0 ≤ (1 - l) * lookupD tight k 0 := mul_nonneg (by linarith) ha
  have : 0 ≤ l * lookupD loose k 0 := mul_nonneg h0 hb
  dsimp only
  linarith

theorem sum_map_blend (ks : List String) (a b : String → ℚ) (l : ℚ) :
    (ks.map (fun k => (1 - l) * a k + l * b k)).sum =
      (1 - l) * (ks.map a).sum + l * (ks.map b).sum := by
  induction ks with
  | nil => simp
  | cons k ks ih =>
    rw [List.map_cons, List.map_cons, List.map_cons, List.sum_cons, List.sum_cons,
      List.sum_cons, ih]
    ring

theorem blendWeights_sum (l : ℚ) (tight loose : List (String × ℚ)) :
    ((blendWeights l tight loose).map Prod.snd).sum =
      (1 - l) * ((unionKeys tight loose).map (fun k => lookupD tight k 0)).sum +
        l * ((unionKeys tight loose).map (fun k => lookupD loose k 0)).sum := by
  unfold blendWeights
  rw [List.map_map]
  exact sum_map_blend (unionKeys tight loose) _ _ l

theorem apply_penalties_out_le (pos : String) (base : ℚ) (r : Row)
    (f : List (String × ℚ))
    (h : pyStrip (pyUpper (statusOf (r "status"))) = "OUT" ∨
         pyStrip (pyUpper (statusOf (r "status"))) = "IR") :
    apply_penalties pos base r f ≤ base - 1 := by
  unfold apply_penalties
  dsimp only
  rw [if_pos (by rcases h with h | h; exacts [Or.inr (Or.inl h), Or.inr (Or.inr h)])]
  split_ifs <;> linarith

theorem qb_tight_nonneg : ∀ kw ∈ qb_profile.tight.weights, 0 ≤ kw.2 := by
  intro kw h
  fin_cases h <;> norm_num

theorem qb_loose_nonneg : ∀ kw ∈ qb_profile.loose.weights, 0 ≤ kw.2 := by
  intro kw h
  fin_cases h <;> norm_num

theorem rb_tight_nonneg : ∀ kw ∈ rb_profile.tight.weights, 0 ≤ kw.2 := by
  intro kw h
  fin_cases h <;> norm_num

theorem rb_loose_nonneg : ∀ kw ∈ rb_profile.loose.weights, 0 ≤ kw.2 := by
  intro kw h
  fin_cases h <;> norm_num

theorem wr_tight_nonneg : ∀ kw ∈ wr_profile.tight.weights, 0 ≤ kw.2 := by
  intro kw h
  fin_cases h <;> norm_num

theorem wr_loose_nonneg : ∀ kw ∈ wr_profile.loose.weights, 0 ≤ kw.2 := by
  intro kw h
  fin_cases h <;> norm_num

theorem te_tight_nonneg : ∀ kw ∈ te_profile.tight.weights, 0 ≤ kw.2 := by
  intro kw h
  fin_cases h <;> norm_num

theorem te_loose_nonneg : ∀ kw ∈ te_profile.loose.weights, 0 ≤ kw.2 := by
  intro kw h
  fin_cases h <;> norm_num

theorem qb_weight_sums :
    ((unionKeys qb_profile.tight.weights qb_profile.loose.weights).map
      (fun k => lookupD qb_profile.tight.weights k 0)).sum = 96/100 ∧
    ((unionKeys qb_profile.tight.weights qb_profile.loose.weights).map
      (fun k => lookupD qb_profile.loose.weights k 0)).sum = 1 := by
  constructor
  · have h0 : (unionKeys qb_profile.tight.weights qb_profile.loose.weights).map
        (fun k => lookupD qb_profile.tight.weights k 0) =
        [22/100, 14/100, 16/100, 10/100, 14/100, 4/100, 6/100, 4/100, 6/100] := rfl
    rw [h0]
    norm_num
  · have h0 : (unionKeys qb_profile.tight.weights qb_profile.loose.weights).map
        (fun k => lookupD qb_profile.loose.weights k 0) =
        [30/100, 12/100, 10/100, 10/100, 18/100, 5/100, 8/100, 3/100, 4/100] := rfl
    rw [h0]
    norm_num

theorem rb_weight_sums :
    ((unionKeys rb_profile.tight.weights rb_profile.loose.weights).map
      (fun k => lookupD rb_profile.tight.weights k 0)).sum = 108/100 ∧
    ((unionKeys rb_profile.tight.weights rb_profile.loose.weights).map
      (fun k => lookupD rb_profile.loose.weights k 0)).sum = 1 := by
  constructor
  · have h0 : (unionKeys rb_profile.tight.weights rb_profile.loose.weights).map
        (fun k => lookupD rb_profile.tight.weights k 0) =
        [18/100, 14/100, 14/100, 12/100, 10/100, 12/100, 8/100, 10/100, 2/100, 8/100] := rfl
    rw [h0]
    norm_num
  · have h0 : (unionKeys rb_profile.tight.weights rb_profile.loose.weights).map
        (fun k => lookupD rb_profile.loose.weights k 0) =
        [24/100, 12/100, 10/100, 12/100, 10/100, 12/100, 8/100, 8/100, 4/100, 0] := rfl
    rw [h0]
    norm_num

theorem wr_weight_sums :
    ((unionKeys wr_profile.tight.weights wr_profile.loose.weights).map
      (fun k => lookupD wr_profile.tight.weights k 0)).sum = 1 ∧
    ((unionKeys wr_profile.tight.weights wr_profile.loose.weights).map
      (fun k => lookupD wr_profile.loose.weights k 0)).sum = 1 := by
  constructor
  · have h0 : (unionKeys wr_profile.tight.weights wr_profile.loose.weights).map
        (fun k => lookupD wr_profile.tight.weights k 0) =
        [16/100, 12/100, 14/100, 12/100, 16/100, 10/100, 8/100, 4/100, 6/100, 2/100] := rfl
    rw [h0]
    norm_num
  · have h0 : (unionKeys wr_profile.tight.weights wr_profile.loose.weights).map
        (fun k => lookupD wr_profile.loose.weights k 0) =
        [22/100, 10/100, 10/100, 12/100, 16/100, 10/100, 6/100, 6/100, 6/100, 2/100] := rfl
    rw [h0]
    norm_num

theorem te_weight_sums :
    ((unionKeys te_profile.tight.weights te_profile.loose.weights).map
      (fun k => lookupD te_profile.tight.weights k 0)).sum = 1 ∧
    ((unionKeys te_profile.tight.weights te_profile.loose.weights).map
      (fun k => lookupD te_profile.loose.weights k 0)).sum = 1 := by
  constructor
  · have h0 : (unionKeys te_profile.tight.weights te_profile.loose.weights).map
        (fun k => lookupD te_profile.tight.weights k 0) =
        [14/100, 10/100, 18/100, 16/100, 16/100, 10/100, 8/100, 6/100, 2/100] := rfl
    rw [h0]
    norm_num
  · have h0 : (unionKeys te_profile.tight.weights te_profile.loose.weights).map
        (fun k => lookupD te_profile.loose.weights k 0) =
        [18/100, 10/100, 12/100, 18/100, 18/100, 10/100, 8/100, 6/100, 0] := rfl
    rw [h0]
    norm_num

/-- Claim C6 (amended): an entity with status "OUT" or "IR" has its score cut
by exactly 1.0 after all other adjustments; under the shipped weight profiles
(positive weight sums at most 1.08, QB bonus +0.02) its final score therefore
never exceeds 0.08, for every combination of feature values and every
looseness in [0, 1].  Because tiers are assigned by group-relative min-max
normalization, this floor does not keep such an entity out of "must"/"want"
when it outscores its group, as the counterexample shows. -/
theorem out_status_score_cap (l : ℚ) (r : Row) (f : List (String × ℚ)) (pos : String)
    (h0 : 0 ≤ l) (h1 : l ≤ 1)
    (hst : r "status" = Val.vstr "OUT" ∨ r "status" = Val.vstr "IR")
    (hpos : pos = "QB" ∨ pos = "RB" ∨ pos = "WR" ∨ pos = "TE") :
    player_final pos
      (blendWeights l (profile_for pos).tight.weights (profile_for pos).loose.weights) r f ≤
      2/25 := by
  have hstn : pyStrip (pyUpper (statusOf (r "status"))) = "OUT" ∨
      pyStrip (pyUpper (statusOf (r "status"))) = "IR" := by
    rcases hst with h | h
    · left; rw [h]; rfl
    · right; rw [h]; rfl
  rcases hpos with rfl | rfl | rfl | rfl
  · have hprof : profile_for "QB" = qb_profile := rfl
    rw [hprof]
    set w := blendWeights l qb_profile.tight.weights qb_profile.loose.weights with hw
    have hnn : ∀ kw ∈ w, 0 ≤ kw.2 :=
      blendWeights_nonneg l _ _ h0 h1 qb_tight_nonneg qb_loose_nonneg
    have hbase : (linear_score f w).1 ≤ (w.map Prod.snd).sum := linear_total_le_sum f w hnn
    have hsum : (w.map Prod.snd).sum = (1 - l) * (96/100) + l * 1 := by
      rw [hw, blendWeights_sum, qb_weight_sums.1, qb_weight_sums.2]
    have hpen := apply_penalties_out_le "QB" ((linear_score f w).1) r f hstn
    unfold player_final
    dsimp only
    split_ifs <;> linarith
  · have hprof : profile_for "RB" = rb_profile := rfl
    rw [hprof]
    set w := blendWeights l rb_profile.tight.weights rb_profile.loose.weights with hw
    have hnn : ∀ kw ∈ w, 0 ≤ kw.2 :=
      blendWeights_nonneg l _ _ h0 h1 rb_tight_nonneg rb_loose_nonneg
    have hbase : (linear_score f w).1 ≤ (w.map Prod.snd).sum := linear_total_le_sum f w hnn
    have hsum : (w.map Prod.snd).sum = (1 - l) * (108/100) + l * 1 := by
      rw [hw, blendWeights_sum, rb_weight_sums.1, rb_weight_sums.2]
    have hpen := apply_penalties_out_le "RB" ((linear_score f w).1) r f hstn
    unfold player_final
    dsimp only
    split_ifs with hb
    · exact absurd hb.1 (by decide)
    · linarith
  · have hprof : profile_for "WR" = wr_profile := rfl
    rw [hprof]
    set w := blendWeights l wr_profile.tight.weights wr_profile.loose.weights with hw
    have hnn : ∀ kw ∈ w, 0 ≤ kw.2 :=
      blendWeights_nonneg l _ _ h0 h1 wr_tight_nonneg wr_loose_nonneg
    have hbase : (linear_score f w).1 ≤ (w.map Prod.snd).sum := linear_total_le_sum f w hnn
    have hsum : (w.map Prod.snd).sum = (1 - l) * 1 + l * 1 := by
      rw [hw, blendWeights_sum, wr_weight_sums.1, wr_weight_sums.2]
    have hpen := apply_penalties_out_le "WR" ((linear_score f w).1) r f hstn
    unfold player_final
    dsimp only
    split_ifs with hb
    · exact absurd hb.1 (by decide)
    · linarith
  · have hprof : profile_for "TE" = te_profile := rfl
    rw [hprof]
    set w := blendWeights l te_profile.tight.weights te_profile.loose.weights with hw
    have hnn : ∀ kw ∈ w, 0 ≤ kw.2 :=
      blendWeights_nonneg l _ _ h0 h1 te_tight_nonneg te_loose_nonneg
    have hbase : (linear_score f w).1 ≤ (w.map Prod.snd).sum := linear_total_le_sum f w hnn
    have hsum : (w.map Prod.snd).sum = (1 - l) * 1 + l * 1 := by
      rw [hw, blendWeights_sum, te_weight_sums.1, te_weight_sums.2]
    have hpen := apply_penalties_out_le "TE" ((linear_score f w).1) r f hstn
    unfold player_final
    dsimp only
    split_ifs with hb
    · exact absurd hb.1 (by decide)
    · linarith

/-- Witness for C6 (amended): an OUT quarterback with no features at
looseness 0 scores within the 0.08 cap. -/
theorem out_status_score_cap_witness :
    player_final "QB"
      (blendWeights 0 (profile_for "QB").tight.weights (profile_for "QB").loose.weights)
      (fun _ => Val.vstr "OUT") [] ≤ 2/25 :=
  out_status_score_cap 0 (fun _ => Val.vstr "OUT") [] "QB" (by norm_num) (by norm_num)
    (Or.inl rfl) (Or.inl rfl)

theorem perm_insertAsc (x : Nat × ℚ) (l : List (Nat × ℚ)) :
    (insertAsc x l).Perm (x :: l) := by
  induction l with
  | nil => exact List.Perm.refl _
  | cons y ys ih =>
    unfold insertAsc
    split_ifs
    · exact List.Perm.refl _
    · exact (List.Perm.cons y ih).trans (List.Perm.swap x y ys)

theorem perm_sortAsc (l : List (Nat × ℚ)) : (sortAsc l).Perm l := by
  induction l with
  | nil => exact List.Perm.refl _
  | cons x xs ih =>
    unfold sortAsc
    exact (perm_insertAsc x (sortAsc xs)).trans (List.Perm.cons x ih)

theorem sorted_insertAsc (x : Nat × ℚ) (l : List (Nat × ℚ))
    (hl : l.Pairwise (fun a b => a.2 ≤ b.2)) :
    (insertAsc x l).Pairwise (fun a b => a.2 ≤ b.2) := by
  induction l with
  | nil => exact List.pairwise_singleton _ x
  | cons y ys ih =>
    unfold insertAsc
    split_ifs with hc
    · rw [List.pairwise_cons]
      refine ⟨?_, hl⟩
      intro z hz
      rcases List.mem_cons.mp hz with h | hz
      · subst h; exact hc
      · exact le_trans hc ((List.pairwise_cons.mp hl).1 z hz)
    · rw [List.pairwise_cons]
      constructor
      · intro z hz
        rcases List.mem_cons.mp ((perm_insertAsc x ys).mem_iff.mp hz) with h | hz'
        · subst h; exact le_of_lt (lt_of_not_le hc)
        · exact (List.pairwise_cons.mp hl).1 z hz'
      · exact ih (List.pairwise_cons.mp hl).2

theorem sorted_sortAsc (l : List (Nat × ℚ)) :
    (sortAsc l).Pairwise (fun a b => a.2 ≤ b.2) := by
  induction l with
  | nil => exact List.Pairwise.nil
  | cons x xs ih =>
    unfold sortAsc
    exact sorted_insertAsc x (sortAsc xs) ih

theorem mem_indexedFrom (k : Nat) (vs : List Val) (i : Nat) (q : ℚ) :
    (i, q) ∈ indexedFrom k vs ↔
      ∃ (j : Nat) (v : Val), i = k + j ∧ vs[j]? = some v ∧ safe_float v = some q := by
  induction vs generalizing k with
  | nil => simp [indexedFrom]
  | cons v vs ih =>
    unfold indexedFrom
    rcases hs : safe_float v with _ | q'
    · constructor
      · intro h
        rcases (ih (k + 1)).mp h with ⟨j, w, rfl, hj, hw⟩
        exact ⟨j + 1, w, by omega, by simpa using hj, hw⟩
      · rintro ⟨j, w, rfl, hj, hw⟩
        cases j with
        | zero =>
          simp only [List.getElem?_cons_zero, Option.some.injEq] at hj
          subst hj
          rw [hs] at hw
          cases hw
        | succ j =>
          simp only [List.getElem?_cons_succ] at hj
          exact (ih (k + 1)).mpr ⟨j, w, by omega, hj, hw⟩
    · constructor
      · intro h
        rcases List.mem_cons.mp h with h | h
        · have h1 : i = k := (Prod.ext_iff.mp h).1
          have h2 : q = q' := (Prod.ext_iff.mp h).2
          exact ⟨0, v, by omega, by simp, by rw [hs, h2]⟩
        · rcases (ih (k + 1)).mp h with ⟨j, w, rfl, hj, hw⟩
          exact ⟨j + 1, w, by omega, by simpa using hj, hw⟩
      · rintro ⟨j, w, rfl, hj, hw⟩
        cases j with
        | zero =>
          simp only [List.getElem?_cons_zero, Option.some.injEq] at hj
          subst hj
          rw [hs] at hw
          have hq : q' = q := Option.some.inj hw
          subst hq
          exact List.mem_cons_self _ _
        | succ j =>
          simp only [List.getElem?_cons_succ] at hj
          exact List.mem_cons_of_mem _ ((ih (k + 1)).mpr ⟨j, w, by omega, hj, hw⟩)

theorem mem_indexedFrom_le (k : Nat) (vs : List Val) :
    ∀ p ∈ indexedFrom k vs, k ≤ p.1 := by
  induction vs generalizing k with
  | nil => intro p hp; cases hp
  | cons v vs ih =>
    intro p hp
    unfold indexedFrom at hp
    rcases hs : safe_float v with _ | q
    · rw [hs] at hp
      exact le_trans (Nat.le_succ k) (ih (k + 1) p hp)
    · rw [hs] at hp
      rcases List.mem_cons.mp hp with h | hp
      · rw [h]
      · exact le_trans (Nat.le_succ k) (ih (k + 1) p hp)

theorem indexedFrom_fst_lt (k : Nat) (vs : List Val) :
    (indexedFrom k vs).Pairwise (fun a b => a.1 < b.1) := by
  induction vs generalizing k with
  | nil => exact List.Pairwise.nil
  | cons v vs ih =>
    unfold indexedFrom
    rcases safe_float v with _ | q
    · exact ih (k + 1)
    · rw [List.pairwise_cons]
      refine ⟨?_, ih (k + 1)⟩
      intro p hp
      exact lt_of_lt_of_le (Nat.lt_succ_self k) (mem_indexedFrom_le (k + 1) vs p hp)

theorem snd_indexedFrom (k : Nat) (vs : List Val) :
    (indexedFrom k vs).map Prod.snd = vs.filterMap safe_float := by
  induction vs generalizing k with
  | nil => rfl
  | cons v vs ih =>
    unfold indexedFrom
    rcases hs : safe_float v with _ | q
    · rw [List.filterMap_cons, hs, ih (k + 1)]
    · rw [List.filterMap_cons, hs, List.map_cons, ih (k + 1)]

theorem length_dropWhile_le' {α : Type} (p : α → Bool) (l : List α) :
    (l.dropWhile p).length ≤ l.length := by
  induction l with
  | nil => exact le_refl _
  | cons x xs ih =>
    rw [List.dropWhile_cons]
    split_ifs
    · exact Nat.le_trans ih (Nat.le_succ _)
    · exact Nat.le_refl _

theorem fst_assignRunsF (fuel : Nat) :
    ∀ (l : List (Nat × ℚ)), l.length ≤ fuel →
    ∀ n start, (assignRunsF fuel n start l).map Prod.fst = l.map Prod.fst := by
  induction fuel with
  | zero =>
    intro l hl n start
    cases l with
    | nil => rfl
    | cons x xs => simp at hl
  | succ fuel ih =>
    intro l hl n start
    cases l with
    | nil => rfl
    | cons x xs =>
      unfold assignRunsF
      dsimp only
      rw [List.map_append, List.map_map]
      have hrest : (xs.dropWhile fun y => decide (y.2 = x.2)).length ≤ fuel := by
        have := length_dropWhile_le' (fun y => decide (y.2 = x.2)) xs
        simp only [List.length_cons] at hl
        omega
      rw [ih _ hrest n _]
      have hfst : (x :: xs.takeWhile fun y => decide (y.2 = x.2)).map
          (Prod.fst ∘ fun p =>
            (p.1, groupPr n start (x :: xs.takeWhile fun y => decide (y.2 = x.2)).length)) =
          (x :: xs.takeWhile fun y => decide (y.2 = x.2)).map Prod.fst :=
        List.map_congr_left (fun a _ => rfl)
      rw [hfst, ← List.map_append, List.cons_append, List.takeWhile_append_dropWhile]

theorem dropWhile_head_false {α : Type} (p : α → Bool) :
    ∀ (l : List α) (h : α) (t : List α), l.dropWhile p = h :: t → p h = false := by
  intro l
  induction l with
  | nil => intro h t hd; cases hd
  | cons a l ih =>
    intro h t hd
    rw [List.dropWhile_cons] at hd
    split_ifs at hd with ha
    · exact ih h t hd
    · injection hd with h1 _
      subst h1
      simpa using ha

theorem mem_takeWhile_eq_val (c : ℚ) : ∀ (xs : List (Nat × ℚ)) (y : Nat × ℚ),
    y ∈ xs.takeWhile (fun z => decide (z.2 = c)) → y.2 = c := by
  intro xs
  induction xs with
  | nil => intro y hy; cases hy
  | cons a l ih =>
    intro y hy
    rw [List.takeWhile_cons] at hy
    split_ifs at hy with ha
    · rcases List.mem_cons.mp hy with h | hy
      · rw [h]; exact of_decide_eq_true ha
      · exact ih y hy
    · cases hy

theorem mem_assignRunsF (fuel : Nat) :
    ∀ (l : List (Nat × ℚ)), l.length ≤ fuel →
    l.Pairwise (fun a b => a.2 ≤ b.2) →
    ∀ (i : Nat) (v : ℚ), (i, v) ∈ l →
    ∀ (n start : Nat),
      (i, groupPr n (start + (l.filter (fun p => decide (p.2 < v))).length)
        ((l.filter (fun p => decide (p.2 = v))).length)) ∈ assignRunsF fuel n start l := by
  induction fuel with
  | zero =>
    intro l hl _ i v hmem n start
    cases l with
    | nil => cases hmem
    | cons x xs => simp at hl
  | succ fuel ih =>
    intro l hl hsort i v hmem n start
    cases l with
    | nil => cases hmem
    | cons x xs =>
      unfold assignRunsF
      dsimp only
      set run := x :: xs.takeWhile (fun y => decide (y.2 = x.2)) with hrun
      set rest := xs.dropWhile (fun y => decide (y.2 = x.2)) with hrest
      have hsplit : x :: xs = run ++ rest := by
        rw [hrun, hrest, List.cons_append, List.takeWhile_append_dropWhile]
      have hrunval : ∀ y ∈ run, y.2 = x.2 := by
        intro y hy
        rcases List.mem_cons.mp hy with h | hy
        · rw [h]
        · exact mem_takeWhile_eq_val x.2 xs y hy
      have hrestval : ∀ y ∈ rest, x.2 < y.2 := by
        intro y hy
        rcases hr : rest with _ | ⟨hd, t⟩
        · rw [hr] at hy; cases hy
        · have hhd : (fun y : Nat × ℚ => decide (y.2 = x.2)) hd = false :=
            dropWhile_head_false _ xs hd t (by rw [← hrest, hr])
          have hhdne : hd.2 ≠ x.2 := by
            intro hc
            rw [show (fun y : Nat × ℚ => decide (y.2 = x.2)) hd = decide (hd.2 = x.2) from rfl,
              hc] at hhd
            simp at hhd
          have hhdmem : hd ∈ x :: xs := by
            rw [hsplit]
            exact List.mem_append_right run (hr ▸ List.mem_cons_self hd t)
          have hhdle : x.2 ≤ hd.2 := by
            rcases List.mem_cons.mp hhdmem with h | h
            · rw [h]
            · exact (List.pairwise_cons.mp hsort).1 hd h
          have hhdgt : x.2 < hd.2 := lt_of_le_of_ne hhdle (fun h => hhdne h.symm)
          have hrest_pw : rest.Pairwise (fun a b => a.2 ≤ b.2) :=
            (List.pairwise_append.mp (hsplit ▸ hsort)).2.1
          rw [hr] at hy
          rcases List.mem_cons.mp hy with h | hy
          · rw [h]; exact hhdgt
          · have := (List.pairwise_cons.mp (hr ▸ hrest_pw)).1 y hy
            exact lt_of_lt_of_le hhdgt this
      have hfsplit : ∀ (f : Nat × ℚ → Bool),
          ((x :: xs).filter f).length = (run.filter f).length + (rest.filter f).length := by
        intro f
        rw [hsplit, List.filter_append, List.length_append]
      have hmem' : (i, v) ∈ run ++ rest := hsplit ▸ hmem
      rcases List.mem_append.mp hmem' with hin | hin
      · have hv : v = x.2 := hrunval (i, v) hin
        have hlt0 : ((x :: xs).filter (fun p => decide (p.2 < v))).length = 0 := by
          rw [hfsplit]
          have h1 : run.filter (fun p => decide (p.2 < v)) = [] := by
            rw [List.filter_eq_nil_iff]
            intro y hy
            simp only [decide_eq_true_eq, not_lt]
            rw [hrunval y hy, ← hv]
          have h2 : rest.filter (fun p => decide (p.2 < v)) = [] := by
            rw [List.filter_eq_nil_iff]
            intro y hy
            simp only [decide_eq_true_eq, not_lt]
            exact le_of_lt (hv ▸ hrestval y hy)
          rw [h1, h2]
          rfl
        have heq : ((x :: xs).filter (fun p => decide (p.2 = v))).length = run.length := by
          rw [hfsplit]
          have h1 : run.filter (fun p => decide (p.2 = v)) = run := by
            rw [List.filter_eq_self]
            intro y hy
            simp only [decide_eq_true_eq]
            rw [hrunval y hy, hv]
          have h2 : rest.filter (fun p => decide (p.2 = v)) = [] := by
            rw [List.filter_eq_nil_iff]
            intro y hy
            simp only [decide_eq_true_eq]
            exact ne_of_gt (hv ▸ hrestval y hy)
          rw [h1, h2]
          simp
        rw [hlt0, heq, Nat.add_zero]
        apply List.mem_append_left
        exact List.mem_map.mpr ⟨(i, v), hin, rfl⟩
      · have hvgt : x.2 < v := hrestval (i, v) hin
        have hltdecomp : ((x :: xs).filter (fun p => decide (p.2 < v))).length =
            run.length + (rest.filter (fun p => decide (p.2 < v))).length := by
          rw [hfsplit]
          have h1 : run.filter (fun p => decide (p.2 < v)) = run := by
            rw [List.filter_eq_self]
            intro y hy
            simp only [decide_eq_true_eq]
            rw [hrunval y hy]
            exact hvgt
          rw [h1]
        have heqdecomp : ((x :: xs).filter (fun p => decide (p.2 = v))).length =
            (rest.filter (fun p => decide (p.2 = v))).length := by
          rw [hfsplit]
          have h1 : run.filter (fun p => decide (p.2 = v)) = [] := by
            rw [List.filter_eq_nil_iff]
            intro y hy
            simp only [decide_eq_true_eq]
            rw [hrunval y hy]
            exact ne_of_lt hvgt
          rw [h1]
          simp
        have hsortrest : rest.Pairwise (fun a b => a.2 ≤ b.2) :=
          (List.pairwise_append.mp (hsplit ▸ hsort)).2.1
        have hrestlen : rest.length ≤ fuel := by
          have := length_dropWhile_le' (fun y : Nat × ℚ => decide (y.2 = x.2)) xs
          simp only [List.length_cons] at hl
          rw [hrest]
          omega
        have hih := ih rest hrestlen hsortrest i v hin n (start + run.length)
        rw [hltdecomp, heqdecomp, ← Nat.add_assoc]
        exact List.mem_append_right _ hih

theorem getElem?_foldl_set_not_mem (asg : List (Nat × ℚ)) :
    ∀ (init : List ℚ) (i : Nat), i ∉ asg.map Prod.fst →
    (asg.foldl (fun acc p => acc.set p.1 p.2) init)[i]? = init[i]? := by
  induction asg with
  | nil => intro init i _; rfl
  | cons p asg ih =>
    intro init i hi
    simp only [List.map_cons, List.mem_cons, not_or] at hi
    rw [List.foldl_cons, ih _ i hi.2, List.getElem?_set_ne (fun h => hi.1 h.symm)]

theorem getElem?_foldl_set_mem (asg : List (Nat × ℚ)) :
    ∀ (init : List ℚ) (i : Nat) (x : ℚ), (asg.map Prod.fst).Nodup → (i, x) ∈ asg →
    i < init.length →
    (asg.foldl (fun acc p => acc.set p.1 p.2) init)[i]? = some x := by
  induction asg with
  | nil => intro init i x _ h _; cases h
  | cons p asg ih =>
    intro init i x hnd hmem hlen
    simp only [List.map_cons, List.nodup_cons] at hnd
    rcases List.mem_cons.mp hmem with h | hmem'
    · have h1 : p.1 = i := by rw [← h]
      have h2 : p.2 = x := by rw [← h]
      rw [List.foldl_cons, getElem?_foldl_set_not_mem asg _ i (h1 ▸ hnd.1)]
      rw [h1, h2, List.getElem?_set_self hlen]
    · rw [List.foldl_cons]
      exact ih _ i x hnd.2 hmem' (by rw [List.length_set]; exact hlen)

theorem filter_length_map_snd (p : ℚ → Bool) :
    ∀ (l : List (Nat × ℚ)),
      ((l.map Prod.snd).filter p).length = (l.filter (fun x => p x.2)).length := by
  intro l
  induction l with
  | nil => rfl
  | cons a l ih =>
    rw [List.map_cons, List.filter_cons, List.filter_cons]
    by_cases h : p a.2
    · rw [if_pos h, if_pos h, List.length_cons, List.length_cons, ih]
    · rw [if_neg h, if_neg h, ih]

theorem percentile_rank_char (values : List Val) (i : Nat) (v : Val) (q : ℚ)
    (hv : values[i]? = some v) (hq : safe_float v = some q) :
    (percentile_rank values)[i]? = some (specPercentile q (presentOf values)) := by
  have hmem : (i, q) ∈ indexedFrom 0 values :=
    (mem_indexedFrom 0 values i q).mpr ⟨i, v, (Nat.zero_add i).symm, hv, hq⟩
  have hne : indexedFrom 0 values ≠ [] := by
    intro h
    rw [h] at hmem
    cases hmem
  have hn : ¬ (indexedFrom 0 values).length = 0 := fun h => hne (List.length_eq_zero.mp h)
  unfold percentile_rank
  dsimp only
  rw [if_neg hn]
  have hperm : (sortAsc (indexedFrom 0 values)).Perm (indexedFrom 0 values) :=
    perm_sortAsc _
  have hmem' : (i, q) ∈ sortAsc (indexedFrom 0 values) := hperm.mem_iff.mpr hmem
  have hpw : (sortAsc (indexedFrom 0 values)).Pairwise (fun a b => a.2 ≤ b.2) :=
    sorted_sortAsc _
  have hcnt_lt : ((sortAsc (indexedFrom 0 values)).filter
      (fun p => decide (p.2 < q))).length = cntLtQ q (presentOf values) := by
    unfold cntLtQ presentOf
    rw [← snd_indexedFrom 0 values, filter_length_map_snd]
    exact (hperm.filter _).length_eq
  have hcnt_eq : ((sortAsc (indexedFrom 0 values)).filter
      (fun p => decide (p.2 = q))).length = cntEqQ q (presentOf values) := by
    unfold cntEqQ presentOf
    rw [← snd_indexedFrom 0 values, filter_length_map_snd]
    exact (hperm.filter _).length_eq
  have hn_eq : (indexedFrom 0 values).length = (presentOf values).length := by
    unfold presentOf
    rw [← snd_indexedFrom 0 values, List.length_map]
  have hassign := mem_assignRunsF (sortAsc (indexedFrom 0 values)).length
    (sortAsc (indexedFrom 0 values)) (le_refl _) hpw i q hmem'
    (indexedFrom 0 values).length 0
  rw [Nat.zero_add, hcnt_lt, hcnt_eq] at hassign
  have hspec : specPercentile q (presentOf values) =
      groupPr (indexedFrom 0 values).length (cntLtQ q (presentOf values))
        (cntEqQ q (presentOf values)) := by
    unfold specPercentile
    rw [hn_eq]
  rw [hspec]
  have hfst : (assignRuns (indexedFrom 0 values).length 0
      (sortAsc (indexedFrom 0 values))).map Prod.fst =
      (sortAsc (indexedFrom 0 values)).map Prod.fst :=
    fst_assignRunsF _ _ (le_refl _) _ _
  have hnodup : ((assignRuns (indexedFrom 0 values).length 0
      (sortAsc (indexedFrom 0 values))).map Prod.fst).Nodup := by
    rw [hfst]
    have hnd_idx : ((indexedFrom 0 values).map Prod.fst).Nodup := by
      have := List.pairwise_map.mpr
        ((indexedFrom_fst_lt 0 values).imp (fun h => h))
      exact List.Pairwise.imp (fun h => Nat.ne_of_lt h) this
    exact ((hperm.map Prod.fst).nodup_iff).mpr hnd_idx
  have hlt : i < values.length := by
    rcases List.getElem?_eq_some.mp hv with ⟨h, _⟩
    exact h
  exact getElem?_foldl_set_mem _ _ i _ hnodup hassign
    (by rw [List.length_replicate]; exact hlt)

theorem percentile_rank_missing (values : List Val) (i : Nat) (v : Val)
    (hv : values[i]? = some v) (hq : safe_float v = none) :
    (percentile_rank values)[i]? = some 0 := by
  have hlt : i < values.length := by
    rcases List.getElem?_eq_some.mp hv with ⟨h, _⟩
    exact h
  have hrep : (List.replicate values.length (0 : ℚ))[i]? = some 0 := by
    rw [List.getElem?_replicate]
    exact if_pos hlt
  have hnotmem : i ∉ (indexedFrom 0 values).map Prod.fst := by
    intro hmem
    rcases List.mem_map.mp hmem with ⟨p, hp, hfst⟩
    have hp' : (i, p.2) ∈ indexedFrom 0 values := by
      have : p = (i, p.2) := by
        rw [← hfst]
    -- p = (p.1, p.2) with p.1 = i
      rw [← this]
      exact hp
    rcases (mem_indexedFrom 0 values i p.2).mp hp' with ⟨j, w, hij, hj, hw⟩
    have : j = i := by omega
    subst this
    rw [hv] at hj
    have : w = v := (Option.some.inj hj).symm
    subst this
    rw [hq] at hw
    cases hw
  unfold percentile_rank
  dsimp only
  split_ifs
  · exact hrep
  · have hperm : (sortAsc (indexedFrom 0 values)).Perm (indexedFrom 0 values) :=
      perm_sortAsc _
    have hnot' : i ∉ (assignRunsF (sortAsc (indexedFrom 0 values)).length
        (indexedFrom 0 values).length 0 (sortAsc (indexedFrom 0 values))).map Prod.fst := by
      rw [fst_assignRunsF _ _ (le_refl _) _ _]
      intro h
      exact hnotmem ((hperm.map Prod.fst).mem_iff.mp h)
    unfold assignRuns
    rw [getElem?_foldl_set_not_mem _ _ i hnot']
    exact hrep

theorem cnt_lt_trans_le (a b : ℚ) (hab : a < b) : ∀ ps : List ℚ,
    (ps.filter (fun x => decide (x < a))).length +
      (ps.filter (fun x => decide (x = a))).length ≤
    (ps.filter (fun x => decide (x < b))).length := by
  intro ps
  induction ps with
  | nil => simp
  | cons x l ih =>
    simp only [List.filter_cons]
    by_cases h1 : x < a
    · have h2 : ¬ x = a := ne_of_lt h1
      have h3 : x < b := lt_trans h1 hab
      have e1 : decide (x < a) = true := decide_eq_true h1
      have e2 : decide (x = a) = false := decide_eq_false h2
      have e3 : decide (x < b) = true := decide_eq_true h3
      simp only [e1, e2, e3, eq_self_iff_true, Bool.false_eq_true, if_true, if_false,
        List.length_cons]
      omega
    · by_cases h2 : x = a
      · have h3 : x < b := by rw [h2]; exact hab
        have e1 : decide (x < a) = false := decide_eq_false h1
        have e2 : decide (x = a) = true := decide_eq_true h2
        have e3 : decide (x < b) = true := decide_eq_true h3
        simp only [e1, e2, e3, eq_self_iff_true, Bool.false_eq_true, if_true, if_false,
          List.length_cons]
        omega
      · by_cases h3 : x < b
        · have e1 : decide (x < a) = false := decide_eq_false h1
          have e2 : decide (x = a) = false := decide_eq_false h2
          have e3 : decide (x < b) = true := decide_eq_true h3
          simp only [e1, e2, e3, eq_self_iff_true, Bool.false_eq_true, if_true, if_false,
            List.length_cons]
          omega
        · have e1 : decide (x < a) = false := decide_eq_false h1
          have e2 : decide (x = a) = false := decide_eq_false h2
          have e3 : decide (x < b) = false := decide_eq_false h3
          simp only [e1, e2, e3, Bool.false_eq_true, if_false]
          omega

theorem cnt_le_length (b : ℚ) : ∀ ps : List ℚ,
    (ps.filter (fun x => decide (x < b))).length +
      (ps.filter (fun x => decide (x = b))).length ≤ ps.length := by
  intro ps
  induction ps with
  | nil => simp
  | cons x l ih =>
    simp only [List.filter_cons, List.length_cons]
    by_cases h1 : x < b
    · have h2 : ¬ x = b := ne_of_lt h1
      have e1 : decide (x < b) = true := decide_eq_true h1
      have e2 : decide (x = b) = false := decide_eq_false h2
      simp only [e1, e2, eq_self_iff_true, Bool.false_eq_true, if_true, if_false,
        List.length_cons]
      omega
    · by_cases h2 : x = b
      · have e1 : decide (x < b) = false := decide_eq_false h1
        have e2 : decide (x = b) = true := decide_eq_true h2
        simp only [e1, e2, eq_self_iff_true, Bool.false_eq_true, if_true, if_false,
          List.length_cons]
        omega
      · have e1 : decide (x < b) = false := decide_eq_false h1
        have e2 : decide (x = b) = false := decide_eq_false h2
        simp only [e1, e2, Bool.false_eq_true, if_false]
        omega

theorem cnt_eq_pos (b : ℚ) (ps : List ℚ) (hb : b ∈ ps) :
    1 ≤ (ps.filter (fun x => decide (x = b))).length := by
  have hmem : b ∈ ps.filter (fun x => decide (x = b)) :=
    List.mem_filter.mpr ⟨hb, by simp⟩
  exact List.length_pos_of_mem hmem

theorem specPercentile_lt (a b : ℚ) (ps : List ℚ) (ha : a ∈ ps) (hb : b ∈ ps)
    (hab : a < b) : specPercentile a ps < specPercentile b ps := by
  have hc1 := cnt_lt_trans_le a b hab ps
  have hc2 := cnt_eq_pos b ps hb
  have hc4 := cnt_eq_pos a ps ha
  have hc3 := cnt_le_length b ps
  have hn2 : 2 ≤ ps.length := by omega
  unfold specPercentile groupPr cntLtQ cntEqQ
  rw [if_neg (by omega), if_neg (by omega)]
  have hden : (0 : ℚ) < (ps.length : ℚ) - 1 := by
    have : (2 : ℚ) ≤ (ps.length : ℚ) := by exact_mod_cast hn2
    linarith
  rw [div_lt_div_iff_of_pos_right hden]
  have hcast1 : ((ps.filter (fun x => decide (x < a))).length : ℚ) +
      ((ps.filter (fun x => decide (x = a))).length : ℚ) ≤
      ((ps.filter (fun x => decide (x < b))).length : ℚ) := by exact_mod_cast hc1
  have hcast4 : (1 : ℚ) ≤ ((ps.filter (fun x => decide (x = a))).length : ℚ) := by
    exact_mod_cast hc4
  have hcast2 : (1 : ℚ) ≤ ((ps.filter (fun x => decide (x = b))).length : ℚ) := by
    exact_mod_cast hc2
  push_cast
  linarith

/-- Claim C1: `percentile_rank` returns one value per input position. Missing
entries (absent or unparseable as a number) receive 0 and are excluded from the
ranking population. Every present entry with numeric value `q` receives
`specPercentile q (presentOf values)`: the average 1-indexed rank of its tie
group among the present entries, mapped through `(r - 1) / (n - 1)` (0 when
`n = 1`). Consequently equal raw values receive identical output percentiles,
two present values `a < b` receive strictly increasing outputs, and the claim's
worked example `[10, 10, 20] ↦ [0.25, 0.25, 1.0]` holds. -/
theorem percentile_rank_correct (values : List Val) :
    (percentile_rank values).length = values.length ∧
    (∀ (i : Nat) (v : Val), values[i]? = some v → safe_float v = none →
      (percentile_rank values)[i]? = some 0) ∧
    (∀ (i : Nat) (v : Val) (q : ℚ), values[i]? = some v → safe_float v = some q →
      (percentile_rank values)[i]? = some (specPercentile q (presentOf values))) ∧
    (∀ (i j : Nat) (vi vj : Val) (q : ℚ), values[i]? = some vi → values[j]? = some vj →
      safe_float vi = some q → safe_float vj = some q →
      (percentile_rank values)[i]? = (percentile_rank values)[j]?) ∧
    (∀ (i j : Nat) (vi vj : Val) (a b : ℚ), values[i]? = some vi → values[j]? = some vj →
      safe_float vi = some a → safe_float vj = some b → a < b →
      ∃ x y : ℚ, (percentile_rank values)[i]? = some x ∧
        (percentile_rank values)[j]? = some y ∧ x < y) ∧
    percentile_rank [Val.vnum 10, Val.vnum 10, Val.vnum 20] = [1/4, 1/4, 1] := by
  refine ⟨length_percentile_rank values, ?_, ?_, ?_, ?_, ?_⟩
  · intro i v hv hq
    exact percentile_rank_missing values i v hv hq
  · intro i v q hv hq
    exact percentile_rank_char values i v q hv hq
  · intro i j vi vj q hvi hvj hqi hqj
    rw [percentile_rank_char values i vi q hvi hqi,
      percentile_rank_char values j vj q hvj hqj]
  · intro i j vi vj a b hvi hvj ha hb hab
    refine ⟨specPercentile a (presentOf values), specPercentile b (presentOf values),
      percentile_rank_char values i vi a hvi ha,
      percentile_rank_char values j vj b hvj hb, ?_⟩
    have hma : a ∈ presentOf values :=
      List.mem_filterMap.mpr ⟨vi, List.getElem?_mem hvi, ha⟩
    have hmb : b ∈ presentOf values :=
      List.mem_filterMap.mpr ⟨vj, List.getElem?_mem hvj, hb⟩
    exact specPercentile_lt a b (presentOf values) hma hmb hab
  · have hd1 : (decide ((10 : ℚ) = 10)) = true := decide_eq_true rfl
    have hd2 : (decide ((20 : ℚ) = 10)) = false := decide_eq_false (by norm_num)
    have hd3 : ((10 : ℚ) ≤ 10) = True := eq_true le_rfl
    have hd4 : ((20 : ℚ) ≤ 10) = False := eq_false (by norm_num)
    have hd5 : ((10 : ℚ) ≤ 20) = True := eq_true (by norm_num)
    norm_num [percentile_rank, indexedFrom, safe_float, assignRuns, assignRunsF,
      sortAsc, insertAsc, groupPr, List.takeWhile, List.dropWhile, List.replicate,
      List.set, hd1, hd2, hd3, hd4, hd5]

/-- Concrete instantiation of `percentile_rank_correct` on
`[vnum 10, vnone, vnum 20]`: the missing middle entry receives 0, the present
entries receive the closed-form percentile, and the smaller present value
receives a strictly smaller output. -/
theorem percentile_rank_correct_witness :
    (percentile_rank [Val.vnum 10, Val.vnone, Val.vnum 20])[1]? = some 0 ∧
    (percentile_rank [Val.vnum 10, Val.vnone, Val.vnum 20])[0]? =
      some (specPercentile 10 (presentOf [Val.vnum 10, Val.vnone, Val.vnum 20])) ∧
    (∃ x y : ℚ, (percentile_rank [Val.vnum 10, Val.vnone, Val.vnum 20])[0]? = some x ∧
      (percentile_rank [Val.vnum 10, Val.vnone, Val.vnum 20])[2]? = some y ∧
      x < y) := by
  obtain ⟨-, hmiss, hchar, -, hmono, -⟩ :=
    percentile_rank_correct [Val.vnum 10, Val.vnone, Val.vnum 20]
  exact ⟨hmiss 1 Val.vnone rfl rfl,
    hchar 0 (Val.vnum 10) 10 rfl rfl,
    hmono 0 2 (Val.vnum 10) (Val.vnum 20) 10 20 rfl rfl rfl rfl (by norm_num)⟩
